import Mathlib

/-!
Verification development for the `email.v2` SMTP client library.

Byte streams are modelled as `List Nat` (one entry per byte, values `< 256`);
ASCII string literals are converted with `bytes`.  Go functions are translated
to fuel-based structurally recursive Lean functions so that all definitions
reduce in the kernel.  Nondeterministic ingredients of the source (generated
Message-Id, current date, multipart boundary tokens, the network peer's
responses) are passed in as explicit parameters.
-/

set_option maxHeartbeats 1000000
set_option maxRecDepth 8000

/-- Decidable equality for `Except` results. -/
instance exceptDecEq {ε α : Type} [DecidableEq ε] [DecidableEq α] : DecidableEq (Except ε α) :=
  fun a b =>
    match a, b with
    | .ok x, .ok y =>
      if h : x = y then .isTrue (by rw [h]) else .isFalse (by simp [h])
    | .ok _, .error _ => .isFalse (by simp)
    | .error _, .ok _ => .isFalse (by simp)
    | .error x, .error y =>
      if h : x = y then .isTrue (by rw [h]) else .isFalse (by simp [h])

/-- Byte values of the characters of an ASCII string literal. -/
def bytes (s : String) : List Nat := s.toList.map Char.toNat

/-- ASCII whitespace, as recognised by `unicode.IsSpace` / `strings.TrimSpace`
on ASCII bytes: space, tab, newline, vertical tab, form feed, carriage return. -/
def isWSByte (b : Nat) : Bool := b == 32 || b == 9 || b == 10 || b == 11 || b == 12 || b == 13

/-- Drop leading ASCII whitespace (model of `bytes.TrimLeftFunc(_, unicode.IsSpace)`
as used by `trimReader`; faithful for streams delivered in a single read). -/
def trimLeftWS : List Nat → List Nat
  | [] => []
  | b :: rest => if isWSByte b then trimLeftWS rest else b :: rest

/-- Drop trailing ASCII whitespace. -/
def trimRightWS (l : List Nat) : List Nat := (trimLeftWS l.reverse).reverse

/-- Model of `strings.TrimSpace` for ASCII content. -/
def trimSpaceB (l : List Nat) : List Nat := trimRightWS (trimLeftWS l)

/-- Lower-case one ASCII byte (model of `strings.ToLower` per byte). -/
def lowerByte (b : Nat) : Nat := if 65 ≤ b ∧ b ≤ 90 then b + 32 else b

/-- Lower-case an ASCII byte string (model of `strings.ToLower`). -/
def lowerB (l : List Nat) : List Nat := l.map lowerByte

/-- Upper-case one ASCII byte (model of `strings.ToUpper` per byte). -/
def upperByte (b : Nat) : Nat := if 97 ≤ b ∧ b ≤ 122 then b - 32 else b

/-- Upper-case an ASCII byte string (model of `strings.ToUpper`). -/
def upperB (l : List Nat) : List Nat := l.map upperByte

/-- Does `l` start with `p` (model of `strings.HasPrefix`)? -/
def startsWithB : List Nat → List Nat → Bool
  | _, [] => true
  | [], _ :: _ => false
  | a :: l, b :: p => a == b && startsWithB l p

/-- Does `l` contain `p` as a contiguous substring (model of `strings.Contains`)? -/
def containsSubB : List Nat → List Nat → Bool
  | l, p => if startsWithB l p then true else
      match l with
      | [] => false
      | _ :: rest => containsSubB rest p

/-- Model of `strings.TrimSuffix`. -/
def trimSuffixB (l suf : List Nat) : List Nat :=
  if startsWithB l.reverse suf.reverse then l.take (l.length - suf.length) else l

/-- Does `l` contain byte `b` (model of `strings.ContainsAny` with a one/two byte set)? -/
def containsByte (l : List Nat) (b : Nat) : Bool := l.contains b

/-- Model of `strings.Split` on a single separator byte. -/
def splitOnByte (sep : Nat) : List Nat → List (List Nat)
  | [] => [[]]
  | b :: rest =>
    if b == sep then [] :: splitOnByte sep rest
    else match splitOnByte sep rest with
      | [] => [[b]]
      | f :: r => (b :: f) :: r

/-- Model of `strings.SplitN(s, sep, 2)` for a one-byte separator: split at the
first occurrence only. -/
def splitN2 (sep : Nat) : List Nat → List (List Nat)
  | [] => [[]]
  | b :: rest =>
    if b == sep then [[], rest]
    else match splitN2 sep rest with
      | [] => [[b]]
      | f :: r => (b :: f) :: r

/-- Model of `strings.Join` with separator `", "`. -/
def joinCommaSpace : List (List Nat) → List Nat
  | [] => []
  | [a] => a
  | a :: rest => a ++ bytes ", " ++ joinCommaSpace rest

/-- Lexicographic byte-string comparison (used for Go's `sort.Strings`). -/
def bytesLE : List Nat → List Nat → Bool
  | [], _ => true
  | _ :: _, [] => false
  | a :: l, b :: r => if a < b then true else if b < a then false else bytesLE l r

/-- Insertion into a byte-string-sorted list. -/
def insertSorted (x : List Nat) : List (List Nat) → List (List Nat)
  | [] => [x]
  | y :: rest => if bytesLE x y then x :: y :: rest else y :: insertSorted x rest

/-- Byte-string insertion sort (model of `sort.Strings`). -/
def sortBytes : List (List Nat) → List (List Nat)
  | [] => []
  | x :: rest => insertSorted x (sortBytes rest)

/-! ## Association lists for MIME headers (`textproto.MIMEHeader`) -/

/-- A MIME header: association list from field name to the list of its values.
Go's `textproto.MIMEHeader` is a map; insertion order carries no meaning, the
model fixes one. -/
abbrev HdrMap := List (List Nat × List (List Nat))

/-- All values stored under key `k`. -/
def hdrValues (h : HdrMap) (k : List Nat) : List (List Nat) :=
  match h.find? (fun kv => kv.1 == k) with
  | some kv => kv.2
  | none => []

/-- `Get`: the first value stored under `k`, or `""` (model of `MIMEHeader.Get`). -/
def hdrGet (h : HdrMap) (k : List Nat) : List Nat :=
  match hdrValues h k with
  | [] => []
  | v :: _ => v

/-- Is key `k` present (model of the `_, ok := hs[k]` form)? -/
def hdrHas (h : HdrMap) (k : List Nat) : Bool := (h.find? (fun kv => kv.1 == k)).isSome

/-- `Set`: replace all values of `k` by the single value `v`
(model of `MIMEHeader.Set`). -/
def hdrSet (h : HdrMap) (k v : List Nat) : HdrMap :=
  match h with
  | [] => [(k, [v])]
  | kv :: rest => if kv.1 == k then (k, [v]) :: rest else kv :: hdrSet rest k v

/-- Delete key `k` (model of `delete(hs, k)`). -/
def hdrDel (h : HdrMap) (k : List Nat) : HdrMap :=
  h.filter (fun kv => !(kv.1 == k))

/-! ## Base64 (`encoding/base64`, StdEncoding) -/

/-- Byte of the base64 alphabet character for sextet `n` (RFC 4648 standard). -/
def b64Char (n : Nat) : Nat :=
  if n < 26 then 65 + n
  else if n < 52 then 97 + (n - 26)
  else if n < 62 then 48 + (n - 52)
  else if n = 62 then 43
  else 47

/-- Standard base64 encoding with `=` padding (`base64.StdEncoding.Encode`). -/
def b64Encode : List Nat → List Nat
  | b1 :: b2 :: b3 :: rest =>
      b64Char (b1 / 4) :: b64Char (b1 % 4 * 16 + b2 / 16) ::
      b64Char (b2 % 16 * 4 + b3 / 64) :: b64Char (b3 % 64) :: b64Encode rest
  | [b1, b2] => [b64Char (b1 / 4), b64Char (b1 % 4 * 16 + b2 / 16), b64Char (b2 % 16 * 4), 61]
  | [b1] => [b64Char (b1 / 4), b64Char (b1 % 4 * 16), 61, 61]
  | [] => []

/-- Sextet value of a base64 alphabet byte. -/
def b64Val (c : Nat) : Option Nat :=
  if 65 ≤ c ∧ c ≤ 90 then some (c - 65)
  else if 97 ≤ c ∧ c ≤ 122 then some (c - 97 + 26)
  else if 48 ≤ c ∧ c ≤ 57 then some (c - 48 + 52)
  else if c = 43 then some 62
  else if c = 47 then some 63
  else none

/-- Strict standard base64 decoding with `=` padding (`base64.StdEncoding.Decode`
on newline-free input). -/
def b64Decode : List Nat → Option (List Nat)
  | [] => some []
  | c1 :: c2 :: c3 :: c4 :: rest =>
    match b64Val c1, b64Val c2 with
    | some v1, some v2 =>
      if c3 = 61 ∧ c4 = 61 ∧ rest = [] then some [v1 * 4 + v2 / 16]
      else if c4 = 61 ∧ rest = [] then
        match b64Val c3 with
        | some v3 => some [v1 * 4 + v2 / 16, v2 % 16 * 16 + v3 / 4]
        | none => none
      else
        match b64Val c3, b64Val c4, b64Decode rest with
        | some v3, some v4, some ds =>
            some ((v1 * 4 + v2 / 16) :: (v2 % 16 * 16 + v3 / 4) :: (v3 % 4 * 64 + v4) :: ds)
        | _, _, _ => none
    | _, _ => none
  | _ => none

/-- Go's base64 stream decoder ignores CR and LF bytes; model of
`base64.NewDecoder(base64.StdEncoding, r)` reading everything. -/
def b64DecodeStream (l : List Nat) : Option (List Nat) :=
  b64Decode (l.filter (fun b => !(b == 13) && !(b == 10)))

/-- Fueled worker for `base64Wrap` (the source loop consumes 57 raw bytes —
one 76-character base64 line — per iteration). -/
def base64WrapAux : Nat → List Nat → List Nat
  | 0, _ => []
  | fuel + 1, b =>
    if 57 ≤ b.length then
      b64Encode (b.take 57) ++ [13, 10] ++ base64WrapAux fuel (b.drop 57)
    else if b = [] then []
    else b64Encode b ++ [13, 10]

/-- Model of `base64Wrap`: encode `b` in base64, wrapped at 76 characters per
line, each line (the last included) terminated by CRLF. -/
def base64Wrap (b : List Nat) : List Nat := base64WrapAux (b.length + 1) b

/-- Fueled worker splitting a byte string into chunks of 76. -/
def chunks76Aux : Nat → List Nat → List (List Nat)
  | 0, _ => []
  | fuel + 1, l =>
    if l = [] then []
    else l.take 76 :: chunks76Aux fuel (l.drop 76)

/-- Split a byte string into consecutive chunks of at most 76 bytes. -/
def chunks76 (l : List Nat) : List (List Nat) := chunks76Aux (l.length + 1) l

/-- Render a chunk list as CRLF-terminated lines. -/
def renderLines : List (List Nat) → List Nat
  | [] => []
  | l :: rest => l ++ [13, 10] ++ renderLines rest

/-- Is `c` a base64 alphabet byte or the padding byte `'='`? -/
def isB64Byte (c : Nat) : Bool := (b64Val c).isSome || c == 61


/-! ## Data model: `Attachment`, `Email`, `mail.Address` -/

/-- Model of `Attachment`: filename, MIME header, raw content. -/
structure Attachment where
  Filename : List Nat
  Header : HdrMap
  Content : List Nat
deriving DecidableEq

/-- Model of the `Email` message struct. -/
structure Email where
  ReplyTo : List (List Nat) := []
  From : List Nat := []
  To : List (List Nat) := []
  Bcc : List (List Nat) := []
  Cc : List (List Nat) := []
  Subject : List Nat := []
  Text : List Nat := []
  HTML : List Nat := []
  Sender : List Nat := []
  Headers : HdrMap := []
  Attachments : List Attachment := []
  ReadReceipt : List (List Nat) := []
deriving DecidableEq

/-- Model of `mail.Address`: display name and address part. -/
structure MailAddress where
  name : List Nat
  address : List Nat
deriving DecidableEq

/-! ## `Email.ParseToFromAddrs`

`mail.ParseAddress` is Go standard library code outside this repository, so the
address parser is a parameter: any function from an address text to either a
parse-error payload or a parsed address. -/

/-- Errors of `ParseToFromAddrs`: the package's missing-address error, or a
propagated `mail.ParseAddress` error. -/
inductive AddrErr where
  | missingToOrFrom
  | parseFail (e : List Nat)
deriving DecidableEq

/-- The nested loops of `ParseToFromAddrs`: parse each address in order,
stopping at the first failure. -/
def parseAddrList (parse : List Nat → Except (List Nat) MailAddress) :
    List (List Nat) → Except (List Nat) (List MailAddress)
  | [] => .ok []
  | a :: rest =>
    match parse a with
    | .error e => .error e
    | .ok addr =>
      match parseAddrList parse rest with
      | .error e => .error e
      | .ok l => .ok (addr :: l)

/-- Model of `Email.ParseToFromAddrs`: require a From address, then parse the
concatenation of To, Cc and Bcc, and require at least one recipient. -/
def ParseToFromAddrs (parse : List Nat → Except (List Nat) MailAddress) (e : Email) :
    Except AddrErr (List MailAddress) :=
  if e.From = [] then .error .missingToOrFrom
  else
    match parseAddrList parse (e.To ++ e.Cc ++ e.Bcc) with
    | .error m => .error (.parseFail m)
    | .ok l => if l.length = 0 then .error .missingToOrFrom else .ok l

/-- The error of the first address in the list that fails to parse. -/
def firstParseErr (parse : List Nat → Except (List Nat) MailAddress) :
    List (List Nat) → Option (List Nat)
  | [] => none
  | a :: rest =>
    match parse a with
    | .error e => some e
    | .ok _ => firstParseErr parse rest

/-! ## `loginAuth` (AUTH LOGIN strategy) -/

/-- Model of the `loginAuth` credential pair. -/
structure LoginAuth where
  username : List Nat
  password : List Nat
deriving DecidableEq

/-- Model of `smtp.ServerInfo`, as passed to a strategy's start step. -/
structure ServerInfoM where
  name : List Nat
  tls : Bool
  auth : List (List Nat)
deriving DecidableEq

/-- Model of `loginAuth.Start`: mechanism name, initial response, error
(`none` = nil). -/
def loginStart (a : LoginAuth) (_ : ServerInfoM) : List Nat × List Nat × Option (List Nat) :=
  (bytes "LOGIN", a.username, none)

/-- Normalisation applied by `loginAuth.Next` to the server challenge:
`TrimSpace`, then `TrimSuffix ":"`, then `ToLower`. -/
def loginNormalize (fromServer : List Nat) : List Nat :=
  lowerB (trimSuffixB (trimSpaceB fromServer) (bytes ":"))

/-- Model of `loginAuth.Next`: `(toServer, E)`, both `none` when no more
challenges are expected; otherwise answer the username/password challenge or
fail with the unexpected-challenge error. -/
def loginNext (a : LoginAuth) (fromServer : List Nat) (more : Bool) :
    Option (List Nat) × Option (List Nat) :=
  if !more then (none, none)
  else
    let command := loginNormalize fromServer
    if command = bytes "username" then (some a.username, none)
    else if command = bytes "password" then (some a.password, none)
    else (none, some (bytes "unexpected server challenge: " ++ command))


/-! ## Quoted-printable (`mime/quotedprintable`) -/

/-- Upper-case hexadecimal digit byte. -/
def hexDigitUpper (n : Nat) : Nat := if n < 10 then 48 + n else 55 + n

/-- `=XX` escape of a byte. -/
def qpEscape (b : Nat) : List Nat := [61, hexDigitUpper (b / 16), hexDigitUpper (b % 16)]

/-- May `b` be written unescaped by the quoted-printable writer
(printable other than `=`, or space/tab)? -/
def isQPRaw (b : Nat) : Bool := (33 ≤ b && b ≤ 126 && b ≠ 61) || b == 32 || b == 9

/-- The writer's `checkLastByte`: a space or tab at the end of the current line
is escaped (soft-wrapping first if fewer than 3 bytes remain on the line).
Returns (flushed output, new current line). -/
def qpCheckLast (line : List Nat) : List Nat × List Nat :=
  match line.getLast? with
  | some b =>
    if b == 32 || b == 9 then
      let l := line.dropLast
      if 72 < l.length then (l ++ [61, 13, 10], qpEscape b)
      else ([], l ++ qpEscape b)
    else ([], line)
  | none => ([], line)

/-- Worker of the quoted-printable writer (`mime/quotedprintable` `Writer` in
text mode): `line` is the current unflushed line, `cr` records a pending
carriage return.  Lines are soft-wrapped with `=CRLF` at 76 columns; lone LF
and CRLF both become CRLF. -/
def qpAux : List Nat → List Nat → Bool → List Nat
  | [], line, _ =>
    match qpCheckLast line with
    | (o, l) => o ++ l
  | b :: rest, line, cr =>
    if cr ∧ b = 10 then qpAux rest line false
    else if b = 10 ∨ b = 13 then
      match qpCheckLast line with
      | (o, l) => o ++ l ++ [13, 10] ++ qpAux rest [] (b == 13)
    else if isQPRaw b then
      if line.length = 75 then line ++ [61, 13, 10] ++ qpAux rest [b] false
      else qpAux rest (line ++ [b]) false
    else
      if 72 < line.length then line ++ [61, 13, 10] ++ qpAux rest (qpEscape b) false
      else qpAux rest (line ++ qpEscape b) false

/-- Model of writing `msg` through `quotedprintable.NewWriter` and closing it
(as `writeMessage` does). -/
def qpEncode (msg : List Nat) : List Nat := qpAux msg [] false

/-- Value of a hexadecimal digit byte. -/
def hexVal (b : Nat) : Option Nat :=
  if 48 ≤ b ∧ b ≤ 57 then some (b - 48)
  else if 65 ≤ b ∧ b ≤ 70 then some (b - 65 + 10)
  else if 97 ≤ b ∧ b ≤ 102 then some (b - 97 + 10)
  else none

/-- Lenient quoted-printable decoder (model of `quotedprintable.NewReader` as
used transparently by `multipart.Reader.NextPart`; malformed escapes are
passed through rather than raising the reader's error). -/
def qpDecodeAux : Nat → List Nat → List Nat
  | 0, cs => cs
  | _ + 1, [] => []
  | fuel + 1, 61 :: 13 :: 10 :: rest => qpDecodeAux fuel rest
  | fuel + 1, 61 :: 10 :: rest => qpDecodeAux fuel rest
  | fuel + 1, 61 :: h1 :: h2 :: rest =>
    (match hexVal h1, hexVal h2 with
     | some v1, some v2 => (v1 * 16 + v2) :: qpDecodeAux fuel rest
     | _, _ => 61 :: qpDecodeAux fuel (h1 :: h2 :: rest))
  | fuel + 1, b :: rest => b :: qpDecodeAux fuel rest

/-- Quoted-printable decoding. -/
def qpDecode (cs : List Nat) : List Nat := qpDecodeAux (cs.length + 1) cs

/-! ## MIME header wire format (`textproto.ReadMIMEHeader` / `headerToBytes`) -/

/-- A byte legal in a MIME header field name (`validHeaderFieldByte`). -/
def isTokenByte (b : Nat) : Bool :=
  (48 ≤ b && b ≤ 57) || (65 ≤ b && b ≤ 90) || (97 ≤ b && b ≤ 122) ||
  b == 33 || b == 35 || b == 36 || b == 37 || b == 38 || b == 39 || b == 42 ||
  b == 43 || b == 45 || b == 46 || b == 94 || b == 95 || b == 96 || b == 124 || b == 126

/-- Worker for canonical MIME header keys: upper-case the first byte and every
byte following a hyphen, lower-case the rest. -/
def canonAux : List Nat → Bool → List Nat
  | [], _ => []
  | b :: rest, upper =>
    (if upper then upperByte b else lowerByte b) :: canonAux rest (b == 45)

/-- Model of `textproto.CanonicalMIMEHeaderKey`: canonicalise a valid field
name, return an invalid one unchanged. -/
def canonKey (k : List Nat) : List Nat :=
  if k.all isTokenByte then canonAux k true else k

/-- One line up to (and consuming) the next LF; `none` at end of input
(`textproto` fails on EOF while reading headers). -/
def getLine : List Nat → Option (List Nat × List Nat)
  | [] => none
  | b :: rest =>
    if b = 10 then some ([], rest)
    else
      match getLine rest with
      | some (l, r) => some (b :: l, r)
      | none => none

/-- Strip one trailing CR (the line terminator handling of `textproto`). -/
def stripCR (l : List Nat) : List Nat :=
  match l.getLast? with
  | some 13 => l.dropLast
  | _ => l

/-- Split at the first occurrence of byte `sep`. -/
def splitAtByte (sep : Nat) : List Nat → Option (List Nat × List Nat)
  | [] => none
  | b :: rest =>
    if b == sep then some ([], rest)
    else
      match splitAtByte sep rest with
      | some (a, r) => some (b :: a, r)
      | none => none

/-- Drop leading spaces and tabs (the value trimming of `ReadMIMEHeader`). -/
def trimLeftST : List Nat → List Nat
  | [] => []
  | b :: rest => if b == 32 || b == 9 then trimLeftST rest else b :: rest

/-- Trim spaces and tabs from both ends (the `trim` of `textproto`). -/
def trimST (l : List Nat) : List Nat := (trimLeftST (trimLeftST l).reverse).reverse

/-- Fueled worker collecting folded continuation lines: while the stream
continues with a space or tab, the next line (trimmed) is appended to the
value after a single space (`readContinuedLineSlice`). -/
def readContLinesAux : Nat → List Nat → List Nat → List Nat × List Nat
  | 0, v, cs => (v, cs)
  | fuel + 1, v, cs =>
    match cs with
    | b :: rest =>
      if b == 32 || b == 9 then
        match getLine (b :: rest) with
        | some (l0, rest2) =>
          readContLinesAux fuel (v ++ [32] ++ trimST (stripCR l0)) rest2
        | none => (v, b :: rest)
      else (v, cs)
    | [] => (v, cs)

/-- Collect folded continuation lines. -/
def readContLines (v cs : List Nat) : List Nat × List Nat :=
  readContLinesAux (cs.length + 1) v cs

/-- Fueled worker of `textproto.ReadMIMEHeader`: parse `Key: value` lines
(with folded continuations) up to the empty line, returning the ordered field
list and the unread remainder. -/
def parseHB : Nat → List Nat → Option (List (List Nat × List Nat) × List Nat)
  | 0, _ => none
  | fuel + 1, cs =>
    match getLine cs with
    | none => none
    | some (l0, rest) =>
      let line := trimST (stripCR l0)
      if line = [] then some ([], rest)
      else
        match readContLines line rest with
        | (full, rest2) =>
          match splitAtByte 58 full with
          | none => none
          | some (k, v) =>
            if k = [] then none
            else
              match parseHB fuel rest2 with
              | some (hs, body) => some ((canonKey k, trimLeftST v) :: hs, body)
              | none => none

/-- Append one value under key `k` (the `m[k] = append(m[k], v)` of
`ReadMIMEHeader`). -/
def hdrAddVal (h : HdrMap) (k v : List Nat) : HdrMap :=
  match h with
  | [] => [(k, [v])]
  | kv :: rest => if kv.1 == k then (kv.1, kv.2 ++ [v]) :: rest else kv :: hdrAddVal rest k v

/-- Group an ordered field list into a header map. -/
def groupPairsAux : HdrMap → List (List Nat × List Nat) → HdrMap
  | h, [] => h
  | h, (k, v) :: rest => groupPairsAux (hdrAddVal h k v) rest

/-- Model of `textproto.ReadMIMEHeader`: the header map plus the unread rest
of the stream. -/
def readMIMEHeader (cs : List Nat) : Option (HdrMap × List Nat) :=
  match parseHB (cs.length + 16) cs with
  | some (ps, body) => some (groupPairsAux [] ps, body)
  | none => none

/-! ## RFC 2047 encoded words (`mime.QEncoding` / `mime.WordDecoder`) -/

/-- Does the header value need RFC 2047 encoding (`mime` `needsEncoding`)? -/
def needsEncoding (s : List Nat) : Bool :=
  s.any (fun b => (b < 32 && b ≠ 9) || 126 < b)

/-- Q-encoding of one byte. -/
def qEncodeByte (b : Nat) : List Nat :=
  if b == 32 then [95]
  else if (33 ≤ b && b ≤ 126) && b ≠ 61 && b ≠ 63 && b ≠ 95 then [b]
  else [61, hexDigitUpper (b / 16), hexDigitUpper (b % 16)]

/-- Model of `mime.QEncoding.Encode("UTF-8", s)`.  The source splits encoded
words longer than 75 bytes; that splitting is not modelled (the theorems rely
only on the identity case where no encoding is needed). -/
def qEncodeHeader (s : List Nat) : List Nat :=
  if needsEncoding s then bytes "=?UTF-8?q?" ++ (s.map qEncodeByte).flatten ++ bytes "?="
  else s

/-- Decode a Q-encoded payload: `_` is a space, `=XX` a byte. -/
def qDecodePayload : List Nat → List Nat
  | [] => []
  | 95 :: rest => 32 :: qDecodePayload rest
  | 61 :: h1 :: h2 :: rest =>
    (match hexVal h1, hexVal h2 with
     | some v1, some v2 => (v1 * 16 + v2) :: qDecodePayload rest
     | _, _ => 61 :: qDecodePayload (h1 :: h2 :: rest))
  | b :: rest => b :: qDecodePayload rest

/-- Try to parse one RFC 2047 encoded word whose leading `=?` has been
consumed; returns the decoded text and the remainder. -/
def parseEncodedWord (cs : List Nat) : Option (List Nat × List Nat) :=
  match splitAtByte 63 cs with
  | none => none
  | some (charset, r1) =>
    match splitAtByte 63 r1 with
    | none => none
    | some (enc, r2) =>
      match splitAtByte 63 r2 with
      | none => none
      | some (payload, r3) =>
        match r3 with
        | 61 :: rest =>
          if charset = [] ∨ payload = [] then none
          else if lowerB enc = bytes "q" then some (qDecodePayload payload, rest)
          else if lowerB enc = bytes "b" then
            match b64Decode payload with
            | some d => some (d, rest)
            | none => none
          else none
        | _ => none

/-- Fueled worker of `mime.WordDecoder.DecodeHeader`: decode every valid
encoded word, copy everything else verbatim.  (Whitespace elision between
adjacent encoded words is not modelled.) -/
def decodeHeaderAux : Nat → List Nat → List Nat
  | 0, cs => cs
  | fuel + 1, cs =>
    match cs with
    | [] => []
    | b :: rest =>
      if b = 61 ∧ rest.head? = some 63 then
        match parseEncodedWord rest.tail with
        | some (dec, r) => dec ++ decodeHeaderAux fuel r
        | none => 61 :: decodeHeaderAux fuel rest
      else b :: decodeHeaderAux fuel rest

/-- Model of `mime.WordDecoder.DecodeHeader` (total; the source's fallback to
the raw value on error is applied at each call site). -/
def decodeHeader (cs : List Nat) : List Nat := decodeHeaderAux (cs.length + 1) cs

/-! ## `mime.ParseMediaType` (simplified model) -/

/-- Strip one level of double quotes from a parameter value. -/
def unquoteB (v : List Nat) : List Nat :=
  match v with
  | 34 :: rest =>
    (match rest.getLast? with
     | some 34 => rest.dropLast
     | _ => v)
  | _ => v

/-- Parse the `key=value` parameter segments following the media type;
empty segments are skipped, a segment without `=` is a parse error. -/
def parseParams : List (List Nat) → Option (List (List Nat × List Nat))
  | [] => some []
  | seg :: rest =>
    if trimSpaceB seg = [] then parseParams rest
    else
      match splitAtByte 61 seg with
      | none => none
      | some (k, v) =>
        match parseParams rest with
        | none => none
        | some ps => some ((lowerB (trimSpaceB k), unquoteB (trimSpaceB v)) :: ps)

/-- Model of `mime.ParseMediaType`: the lower-cased, trimmed media type before
the first `;`, plus parsed parameters. -/
def parseMediaType (v : List Nat) : Option (List Nat × List (List Nat × List Nat)) :=
  match splitOnByte 59 v with
  | [] => none
  | base :: rest =>
    let mt := lowerB (trimSpaceB base)
    if mt = [] then none
    else
      match parseParams rest with
      | none => none
      | some ps => some (mt, ps)

/-- Parameter lookup. -/
def paramsGet (ps : List (List Nat × List Nat)) (k : List Nat) : Option (List Nat) :=
  match ps.find? (fun kv => kv.1 == k) with
  | some kv => some kv.2
  | none => none

/-! ## `mime/multipart` reader (simplified model for well-formed bodies) -/

/-- Find the first occurrence of `delim`, returning the bytes before it and
the bytes after it. -/
def findDelim (delim : List Nat) : Nat → List Nat → Option (List Nat × List Nat)
  | 0, _ => none
  | fuel + 1, cs =>
    if startsWithB cs delim then some ([], cs.drop delim.length)
    else
      match cs with
      | [] => none
      | b :: rest =>
        match findDelim delim fuel rest with
        | some (pre, post) => some (b :: pre, post)
        | none => none

/-- Collect the raw part bodies after a dash-boundary: `cs` starts right after
`--boundary`.  A following `--` closes the multipart; otherwise transport
padding and the line break are skipped and the part runs to the next
`CRLF--boundary`. -/
def mpParts (bnd : List Nat) : Nat → List Nat → Option (List (List Nat))
  | 0, _ => none
  | fuel + 1, cs =>
    if startsWithB cs (bytes "--") then some []
    else
      match trimLeftST cs with
      | 13 :: 10 :: rest =>
        (match findDelim ([13, 10] ++ bytes "--" ++ bnd) (rest.length + 1) rest with
         | some (content, post) =>
           (match mpParts bnd fuel post with
            | some ps => some (content :: ps)
            | none => none)
         | none => none)
      | 10 :: rest =>
        (match findDelim ([13, 10] ++ bytes "--" ++ bnd) (rest.length + 1) rest with
         | some (content, post) =>
           (match mpParts bnd fuel post with
            | some ps => some (content :: ps)
            | none => none)
         | none => none)
      | _ => none

/-- Split a multipart body into its raw parts (model of iterating
`multipart.Reader.NextPart`; any preamble before the first dash-boundary is
skipped). -/
def splitMultipart (bnd body : List Nat) : Option (List (List Nat)) :=
  match findDelim (bytes "--" ++ bnd) (body.length + 1) body with
  | none => none
  | some (_, post) => mpParts bnd (body.length + 1) post

/-- Model of `multipart.Reader.NextPart` for one raw part: read its MIME
header; a quoted-printable Content-Transfer-Encoding is decoded transparently
and the header entry removed. -/
def mkPart (raw : List Nat) : Option (HdrMap × List Nat) :=
  match readMIMEHeader raw with
  | none => none
  | some (hdr, body) =>
    if lowerB (hdrGet hdr (bytes "Content-Transfer-Encoding")) = bytes "quoted-printable"
    then some (hdrDel hdr (bytes "Content-Transfer-Encoding"), qpDecode body)
    else some (hdr, body)

/-! ## `parseMIMEParts` and `NewEmailFromReader` -/

/-- The decoder-internal `part`: a flattened leaf with header and body. -/
structure MimePart where
  header : HdrMap
  body : List Nat
deriving DecidableEq

/-- The errors of the decode path. -/
inductive MailErr where
  | missingBoundary
  | missingContentType
  | mediaTypeParse
  | headerParse
  | multipartMalformed
  | base64Malformed
  | depthExceeded
deriving DecidableEq

/-- `defaultContentType` of the source (RFC 2045 section 5.2). -/
def defaultContentType : List Nat := bytes "text/plain; charset=us-ascii"

/-- The per-sub-part loop body of `parseMIMEParts`, over a recursive handler
`rec` for nested multiparts: default the Content-Type, parse it, recurse on a
multipart sub-part, else base64-decode if so transfer-encoded and keep the
flattened leaf. -/
def processParts (rec : HdrMap → List Nat → Except MailErr (List MimePart)) :
    List (List Nat) → Except MailErr (List MimePart)
  | [] => .ok []
  | raw :: rest =>
    match mkPart raw with
    | none => .error .headerParse
    | some (hdr0, pbody) =>
      let hdr := if hdrHas hdr0 (bytes "Content-Type") then hdr0
                 else hdrSet hdr0 (bytes "Content-Type") defaultContentType
      match parseMediaType (hdrGet hdr (bytes "Content-Type")) with
      | none => .error .mediaTypeParse
      | some (subct, _) =>
        match
          (if startsWithB subct (bytes "multipart/") then rec hdr pbody
           else if hdrGet hdr (bytes "Content-Transfer-Encoding") = bytes "base64" then
             match b64DecodeStream pbody with
             | none => .error .base64Malformed
             | some d => .ok [⟨hdr, d⟩]
           else .ok [⟨hdr, pbody⟩]) with
        | .error e => .error e
        | .ok ps1 =>
          match processParts rec rest with
          | .error e => .error e
          | .ok ps2 => .ok (ps1 ++ ps2)

/-- Fueled model of `parseMIMEParts`: default a missing Content-Type, require
a boundary for `multipart/*`, recurse into sub-parts; a non-multipart entity
is one flattened leaf. -/
def parseMIMEPartsAux : Nat → HdrMap → List Nat → Except MailErr (List MimePart)
  | 0, _, _ => .error .depthExceeded
  | fuel + 1, hs0, body =>
    let hs := if hdrHas hs0 (bytes "Content-Type") then hs0
              else hdrSet hs0 (bytes "Content-Type") defaultContentType
    match parseMediaType (hdrGet hs (bytes "Content-Type")) with
    | none => .error .mediaTypeParse
    | some (ct, params) =>
      if startsWithB ct (bytes "multipart/") then
        match paramsGet params (bytes "boundary") with
        | none => .error .missingBoundary
        | some bnd =>
          match splitMultipart bnd body with
          | none => .error .multipartMalformed
          | some raws => processParts (parseMIMEPartsAux fuel) raws
      else .ok [⟨hs, body⟩]

/-- `parseMIMEParts` with ample fuel (the source has no recursion limit). -/
def parseMIMEParts (hs : HdrMap) (body : List Nat) : Except MailErr (List MimePart) :=
  parseMIMEPartsAux (body.length + 8) hs body

/-- The header-special-casing of `NewEmailFromReader` for Subject and From:
RFC 2047-decode, keeping the raw value when the decoded one is empty. -/
def decodeOrKeep (v : List Nat) : List Nat :=
  if decodeHeader v = [] then v else decodeHeader v

/-- The selection loop over the flattened leaves (source lines 209-223): each
`text/plain` leaf is assigned to `Text`, each `text/html` leaf to `HTML`, so a
later leaf overwrites an earlier one; a missing or unparseable Content-Type is
an error. -/
def assignParts : Email → List MimePart → Except MailErr Email
  | e, [] => .ok e
  | e, p :: rest =>
    if hdrGet p.header (bytes "Content-Type") = [] then .error .missingContentType
    else
      match parseMediaType (hdrGet p.header (bytes "Content-Type")) with
      | none => .error .mediaTypeParse
      | some (ct, _) =>
        assignParts
          (if ct = bytes "text/plain" then { e with Text := p.body }
           else if ct = bytes "text/html" then { e with HTML := p.body }
           else e) rest

/-- Model of `NewEmailFromReader`: trim leading whitespace, read the header
block, pull out Subject/To/Cc/Bcc/From (RFC 2047-decoded) and delete them from
the generic header map, recursively flatten the MIME parts, then run the
text/html selection loop.  (The source mutates the shared header map when
defaulting the Content-Type, so the default also lands in `Headers`.) -/
def NewEmailFromReader (stream : List Nat) : Except MailErr Email :=
  match readMIMEHeader (trimLeftWS stream) with
  | none => .error .headerParse
  | some (hdrs, body) =>
    let subj := decodeOrKeep (hdrGet hdrs (bytes "Subject"))
    let tos := (hdrValues hdrs (bytes "To")).map decodeHeader
    let ccs := (hdrValues hdrs (bytes "Cc")).map decodeHeader
    let bccs := (hdrValues hdrs (bytes "Bcc")).map decodeHeader
    let fromV := decodeOrKeep (hdrGet hdrs (bytes "From"))
    let hdrs2 := hdrDel (hdrDel (hdrDel (hdrDel (hdrDel hdrs (bytes "Subject"))
                   (bytes "To")) (bytes "Cc")) (bytes "Bcc")) (bytes "From")
    let hdrs3 := if hdrHas hdrs2 (bytes "Content-Type") then hdrs2
                 else hdrSet hdrs2 (bytes "Content-Type") defaultContentType
    match parseMIMEParts hdrs2 body with
    | .error e => .error e
    | .ok ps =>
      assignParts
        { Subject := subj, To := tos, Cc := ccs, Bcc := bccs, From := fromV,
          Headers := hdrs3 } ps

/-! ## Encoder: `msgHeaders`, body shape, `Email.Bytes` -/

/-- The derived header names merged from `e.Headers` first. -/
def derivedNames : List (List Nat) :=
  [bytes "Reply-To", bytes "To", bytes "Cc", bytes "From", bytes "Subject",
   bytes "Date", bytes "Message-Id", bytes "MIME-Version"]

/-- Model of `Email.msgHeaders`: explicit custom headers win over derived
values; Message-Id, Date and MIME-Version get defaults.  The generated
Message-Id and the current date are parameters.  (Go's map has no order; the
model emits fields in the order the source sets them.) -/
def msgHeaders (e : Email) (date msgid : List Nat) : HdrMap :=
  let res : HdrMap := derivedNames.foldl (fun acc k =>
      match e.Headers.find? (fun kv => kv.1 == k) with
      | some kv => acc ++ [(k, kv.2)]
      | none => acc) []
  let res := if hdrHas res (bytes "Reply-To") ∨ e.ReplyTo = [] then res
             else hdrSet res (bytes "Reply-To") (joinCommaSpace e.ReplyTo)
  let res := if hdrHas res (bytes "To") ∨ e.To = [] then res
             else hdrSet res (bytes "To") (joinCommaSpace e.To)
  let res := if hdrHas res (bytes "Cc") ∨ e.Cc = [] then res
             else hdrSet res (bytes "Cc") (joinCommaSpace e.Cc)
  let res := if hdrHas res (bytes "Subject") ∨ e.Subject = [] then res
             else hdrSet res (bytes "Subject") e.Subject
  let res := if hdrHas res (bytes "Message-Id") then res
             else hdrSet res (bytes "Message-Id") msgid
  let res := if hdrHas res (bytes "From") then res else hdrSet res (bytes "From") e.From
  let res := if hdrHas res (bytes "Date") then res else hdrSet res (bytes "Date") date
  let res := if hdrHas res (bytes "MIME-Version") then res
             else hdrSet res (bytes "MIME-Version") (bytes "1.0")
  res ++ e.Headers.filter (fun kv => !hdrHas res kv.1)

/-- Model of `headerToBytes`: one `Field: value` CRLF line per value;
Content-Type and Content-Disposition are written verbatim, every other value
through RFC 2047 Q-encoding. -/
def headerToBytes : HdrMap → List Nat
  | [] => []
  | (field, vals) :: rest =>
    (vals.map (fun v =>
        field ++ bytes ": " ++
        (if field = bytes "Content-Type" ∨ field = bytes "Content-Disposition" then v
         else qEncodeHeader v) ++ [13, 10])).flatten
      ++ headerToBytes rest

/-- A text or HTML body leaf of the encoded message. -/
inductive BodyLeaf where
  | textLeaf (content : List Nat)
  | htmlLeaf (content : List Nat)
deriving DecidableEq

/-- The top-level body shape chosen by `Email.Bytes`. -/
inductive TopShape where
  | singlePlain (body : List Nat)
  | singleHTML (body : List Nat)
  | alternative (leaves : List BodyLeaf)
  | mixed (leaves : List BodyLeaf) (atts : List Attachment)
  | mixedWithAlt (altLeaves : List BodyLeaf) (atts : List Attachment)
deriving DecidableEq

/-- The text/HTML leaves written by the body section of `Bytes` (text first if
present, then HTML if present). -/
def bodyLeaves (e : Email) : List BodyLeaf :=
  (if 0 < e.Text.length then [BodyLeaf.textLeaf e.Text] else []) ++
  (if 0 < e.HTML.length then [BodyLeaf.htmlLeaf e.HTML] else [])

/-- The body-shape decision of `Email.Bytes`, translated from its
`isMixed`/`isAlternative` switch and the conditional body section. -/
def emailShape (e : Email) : TopShape :=
  if 0 < e.Attachments.length then
    if 0 < e.Text.length ∧ 0 < e.HTML.length then .mixedWithAlt (bodyLeaves e) e.Attachments
    else .mixed (bodyLeaves e) e.Attachments
  else if 0 < e.Text.length ∧ 0 < e.HTML.length then .alternative (bodyLeaves e)
  else if 0 < e.HTML.length then .singleHTML e.HTML
  else .singlePlain e.Text

/-- The top-level Content-Type (and Content-Transfer-Encoding, when set) that
`Bytes` writes for each shape. -/
def topContentType (e : Email) (bnd : List Nat) : List Nat × Option (List Nat) :=
  if 0 < e.Attachments.length then
    (bytes "multipart/mixed;\r\n boundary=" ++ bnd, none)
  else if 0 < e.Text.length ∧ 0 < e.HTML.length then
    (bytes "multipart/alternative;\r\n boundary=" ++ bnd, none)
  else if 0 < e.HTML.length then
    (bytes "text/html; charset=UTF-8", some (bytes "quoted-printable"))
  else
    (bytes "text/plain; charset=UTF-8", some (bytes "quoted-printable"))

/-- The body shape exactly as the specification's five ordered cases describe
it.  This definition follows the spec's words, for comparison with
`emailShape`. -/
def specShape (e : Email) : TopShape :=
  if e.Attachments ≠ [] ∧ e.Text ≠ [] ∧ e.HTML ≠ [] then
    .mixedWithAlt [.textLeaf e.Text, .htmlLeaf e.HTML] e.Attachments
  else if e.Attachments ≠ [] then
    .mixed (if e.Text ≠ [] then [.textLeaf e.Text]
            else if e.HTML ≠ [] then [.htmlLeaf e.HTML] else []) e.Attachments
  else if e.Text ≠ [] ∧ e.HTML ≠ [] then
    .alternative [.textLeaf e.Text, .htmlLeaf e.HTML]
  else if e.HTML ≠ [] then .singleHTML e.HTML
  else .singlePlain e.Text

/-- The top-level content type as the specification's five ordered cases
describe it (spec-side definition, for comparison with `topContentType`). -/
def specTopContentType (e : Email) (bnd : List Nat) : List Nat × Option (List Nat) :=
  if e.Attachments ≠ [] ∧ e.Text ≠ [] ∧ e.HTML ≠ [] then
    (bytes "multipart/mixed;\r\n boundary=" ++ bnd, none)
  else if e.Attachments ≠ [] then
    (bytes "multipart/mixed;\r\n boundary=" ++ bnd, none)
  else if e.Text ≠ [] ∧ e.HTML ≠ [] then
    (bytes "multipart/alternative;\r\n boundary=" ++ bnd, none)
  else if e.HTML ≠ [] then
    (bytes "text/html; charset=UTF-8", some (bytes "quoted-printable"))
  else
    (bytes "text/plain; charset=UTF-8", some (bytes "quoted-printable"))

/-- Render one part's header for `multipart.Writer.CreatePart`: keys sorted,
values verbatim. -/
def renderPartHeader (h : HdrMap) : List Nat :=
  ((sortBytes (h.map Prod.fst)).map (fun k =>
      ((hdrValues h k).map (fun v => k ++ bytes ": " ++ v ++ [13, 10])).flatten)).flatten

/-- Render a sequence of `CreatePart` calls with their written contents: the
first part's dash-boundary has no leading CRLF, later ones do. -/
def mpRender (bnd : List Nat) : List (HdrMap × List Nat) → Bool → List Nat
  | [], _ => []
  | (h, content) :: rest, first =>
    (if first then [] else [13, 10]) ++ bytes "--" ++ bnd ++ [13, 10] ++
    renderPartHeader h ++ [13, 10] ++ content ++ mpRender bnd rest false

/-- The closing delimiter written by `multipart.Writer.Close`. -/
def mpClose (bnd : List Nat) : List Nat :=
  [13, 10] ++ bytes "--" ++ bnd ++ bytes "--" ++ [13, 10]

/-- The header of a quoted-printable text part created by `writeMessage`. -/
def qpPartHeader (mediaType : List Nat) : HdrMap :=
  [(bytes "Content-Type", [mediaType ++ bytes "; charset=UTF-8"]),
   (bytes "Content-Transfer-Encoding", [bytes "quoted-printable"])]

/-- Part emitted for a body leaf. -/
def leafPart (l : BodyLeaf) : HdrMap × List Nat :=
  match l with
  | .textLeaf c => (qpPartHeader (bytes "text/plain"), qpEncode c)
  | .htmlLeaf c => (qpPartHeader (bytes "text/html"), qpEncode c)

/-- Part emitted for an attachment: its own header, base64-wrapped content. -/
def attPart (a : Attachment) : HdrMap × List Nat := (a.Header, base64Wrap a.Content)

/-- Render the message body for a given shape (boundary tokens are
parameters; Go generates them randomly). -/
def renderShape (bnd subBnd : List Nat) : TopShape → List Nat
  | .singlePlain c => qpEncode c
  | .singleHTML c => qpEncode c
  | .alternative leaves => mpRender bnd (leaves.map leafPart) true ++ mpClose bnd
  | .mixed leaves atts =>
    mpRender bnd (leaves.map leafPart ++ atts.map attPart) true ++ mpClose bnd
  | .mixedWithAlt leaves atts =>
    mpRender bnd
      ([([(bytes "Content-Type", [bytes "multipart/alternative;\r\n boundary=" ++ subBnd])],
         mpRender subBnd (leaves.map leafPart) true ++ mpClose subBnd)]
        ++ atts.map attPart) true ++ mpClose bnd

/-- Model of `Email.Bytes`: merged headers with the shape's Content-Type (and
transfer encoding for the single-part shapes), a blank line, then the body. -/
def emailBytes (e : Email) (bnd subBnd date msgid : List Nat) : List Nat :=
  let headers := msgHeaders e date msgid
  let shape := emailShape e
  let headers :=
    match topContentType e bnd with
    | (ctv, none) => hdrSet headers (bytes "Content-Type") ctv
    | (ctv, some cte) =>
      hdrSet (hdrSet headers (bytes "Content-Type") ctv)
        (bytes "Content-Transfer-Encoding") cte
  headerToBytes headers ++ [13, 10] ++ renderShape bnd subBnd shape


/-- Does the media type of a leaf's Content-Type parse to exactly `mt`? -/
def isLeafOf (mt : List Nat) (p : MimePart) : Bool :=
  match parseMediaType (hdrGet p.header (bytes "Content-Type")) with
  | some (ct, _) => ct == mt
  | none => false


/-! ## SMTP client session model (`smtp_client.go`)

The transport shim is modelled by a trace of sent command lines plus a script
of server responses consumed in order: `Cmd` appends the rendered command to
`sent`, `ReadResponse` pops the next scripted `(code, message)`. -/

/-- Errors of the session model.  `strat` wraps an error returned by the
authentication strategy (an opaque payload); the other constructors stand for
the distinct error sources of the source file. -/
inductive SErr where
  | crlf
  | lateHello
  | proto (code : Nat) (msg : List Nat)
  | eof
  | b64
  | strat (e : List Nat)
  | starttlsNotOffered
  | fuel
deriving DecidableEq

/-- The `Client` state plus the transport model. -/
structure ClientSt where
  didHello : Bool := false
  helloError : Option SErr := none
  extSet : Bool := false
  ext : List (List Nat × List Nat) := []
  auth : List (List Nat) := []
  localName : List Nat := bytes "localhost"
  serverName : List Nat := []
  isTLS : Bool := false
  sent : List (List Nat) := []
  script : List (Nat × List Nat) := []
  closed : Bool := false
deriving DecidableEq

/-- Model of `validateLine`: reject CR or LF (RFC 5321). -/
def validateLine (l : List Nat) : Option SErr :=
  if l.contains 13 ∨ l.contains 10 then some .crlf else none

/-- `textproto` expect-code matching (`ReadResponse`). -/
def codeMatches (expectCode code : Nat) : Bool :=
  if 1 ≤ expectCode ∧ expectCode < 10 then code / 100 == expectCode
  else if 10 ≤ expectCode ∧ expectCode < 100 then code / 10 == expectCode
  else if 100 ≤ expectCode then code == expectCode
  else true

/-- Model of `Text.ReadResponse`: pop the next scripted response; a code that
does not match the expectation is a protocol error, an exhausted script an
EOF. -/
def readResponse (st : ClientSt) (expectCode : Nat) :
    Except SErr (Nat × List Nat) × ClientSt :=
  match st.script with
  | [] => (.error .eof, st)
  | (code, msg) :: rest =>
    if codeMatches expectCode code then (.ok (code, msg), { st with script := rest })
    else (.error (.proto code msg), { st with script := rest })

/-- Model of `Client.cmd`: send the rendered command line, then read the
response. -/
def cmdM (st : ClientSt) (expectCode : Nat) (line : List Nat) :
    Except SErr (Nat × List Nat) × ClientSt :=
  readResponse { st with sent := st.sent ++ [line] } expectCode

/-- Overwriting insertion into the extension map (`ext[k] = v`). -/
def extAdd (ext : List (List Nat × List Nat)) (k v : List Nat) :
    List (List Nat × List Nat) :=
  match ext with
  | [] => [(k, v)]
  | kv :: rest => if kv.1 == k then (k, v) :: rest else kv :: extAdd rest k v

/-- Extension lookup. -/
def extGet (ext : List (List Nat × List Nat)) (k : List Nat) : Option (List Nat) :=
  match ext.find? (fun kv => kv.1 == k) with
  | some kv => some kv.2
  | none => none

/-- Collect `KEYWORD [params]` lines of the EHLO response into the extension
map (`strings.SplitN(line, " ", 2)` per line). -/
def collectExt : List (List Nat) → List (List Nat × List Nat) → List (List Nat × List Nat)
  | [], ext => ext
  | line :: rest, ext =>
    match splitN2 32 line with
    | [a, b] => collectExt rest (extAdd ext a b)
    | [a] => collectExt rest (extAdd ext a [])
    | _ => collectExt rest ext

/-- Model of `Client.ehlo`: send EHLO, split the multi-line response on LF,
drop the greeting line, collect extensions, and split an AUTH parameter into
the mechanism list. -/
def ehloM (st : ClientSt) : Except SErr Unit × ClientSt :=
  match cmdM st 250 (bytes "EHLO " ++ st.localName) with
  | (.error e, st1) => (.error e, st1)
  | (.ok (_, msg), st1) =>
    let extList := splitOnByte 10 msg
    let ext := if 1 < extList.length then collectExt (extList.drop 1) [] else []
    let auth := match extGet ext (bytes "AUTH") with
      | some mechs => splitOnByte 32 mechs
      | none => st1.auth
    (.ok (), { st1 with extSet := true, ext := ext, auth := auth })

/-- Model of `Client.helo`: clear the extension set, send HELO. -/
def heloM (st : ClientSt) : Except SErr Unit × ClientSt :=
  match cmdM { st with extSet := false, ext := [] } 250 (bytes "HELO " ++ st.localName) with
  | (.error e, st1) => (.error e, st1)
  | (.ok _, st1) => (.ok (), st1)

/-- Model of `Client.hello`: memoized greeting; EHLO with HELO fallback, the
fallback's error cached in `helloError`. -/
def helloM (st : ClientSt) : Except SErr Unit × ClientSt :=
  if st.didHello then
    match st.helloError with
    | some e => (.error e, st)
    | none => (.ok (), st)
  else
    match ehloM { st with didHello := true } with
    | (.ok _, st1) => (.ok (), st1)
    | (.error _, st1) =>
      match heloM st1 with
      | (.ok _, st2) => (.ok (), st2)
      | (.error e, st2) => (.error e, { st2 with helloError := some e })

/-- Model of the public `Client.Hello`: validate the host name, reject a late
call, set the local name and greet. -/
def HelloM (st : ClientSt) (localName : List Nat) : Except SErr Unit × ClientSt :=
  match validateLine localName with
  | some e => (.error e, st)
  | none =>
    if st.didHello then (.error .lateHello, st)
    else helloM { st with localName := localName }

/-- Model of `Client.Mail`: validate the sender address before any I/O, greet
if needed, and issue MAIL FROM with the BODY=8BITMIME parameter when that
extension was advertised. -/
def MailM (st : ClientSt) (fromAddr : List Nat) : Except SErr Unit × ClientSt :=
  match validateLine fromAddr with
  | some e => (.error e, st)
  | none =>
    match helloM st with
    | (.error e, st1) => (.error e, st1)
    | (.ok _, st1) =>
      let cmdStr := bytes "MAIL FROM:<" ++ fromAddr ++ bytes ">" ++
        (if st1.extSet then
           match extGet st1.ext (bytes "8BITMIME") with
           | some _ => bytes " BODY=8BITMIME"
           | none => []
         else [])
      match cmdM st1 250 cmdStr with
      | (.error e, st2) => (.error e, st2)
      | (.ok _, st2) => (.ok (), st2)

/-- Model of `Client.Rcpt`: validate the recipient address before any I/O,
then issue RCPT TO (expecting a 25x code). -/
def RcptM (st : ClientSt) (toAddr : List Nat) : Except SErr Unit × ClientSt :=
  match validateLine toAddr with
  | some e => (.error e, st)
  | none =>
    match cmdM st 25 (bytes "RCPT TO:<" ++ toAddr ++ bytes ">") with
    | (.error e, st1) => (.error e, st1)
    | (.ok _, st1) => (.ok (), st1)

/-- Model of `Client.Quit`: greet if needed, send QUIT, close the transport
on success. -/
def QuitM (st : ClientSt) : Except SErr Unit × ClientSt :=
  match helloM st with
  | (.error e, st1) => (.error e, st1)
  | (.ok _, st1) =>
    match cmdM st1 221 (bytes "QUIT") with
    | (.error e, st2) => (.error e, st2)
    | (.ok _, st2) => (.ok (), { st2 with closed := true })

/-- An authentication strategy with internal state `σ` (the interface methods
may mutate their receiver): a start step and a continuation step, each able to
fail with an opaque error payload. -/
structure AuthStrat (σ : Type) where
  start : σ → ServerInfoM → Except (List Nat) (List Nat × List Nat) × σ
  next : σ → List Nat → Bool → Except (List Nat) (Option (List Nat)) × σ

/-- The AUTH challenge loop of `Client.Auth` (fueled; one scripted response is
consumed per iteration, so any fuel above the script length is ample): on 334
the challenge is base64-decoded and fed to the strategy, on 235 passed raw as
a final trailer, any other code is a protocol error; an error after the code
switch or from the strategy aborts with `*` and Quits; a nil strategy response
ends the loop. -/
def authLoop {σ : Type} (a : AuthStrat σ) :
    Nat → σ → ClientSt → Nat → List Nat → Except SErr Unit × ClientSt
  | 0, _, st, _, _ => (.error .fuel, st)
  | fuel + 1, s, st, code, msg64 =>
    match (if code = 334 then
             match b64Decode msg64 with
             | some m => Except.ok m
             | none => Except.error SErr.b64
           else if code = 235 then Except.ok msg64
           else Except.error (SErr.proto code msg64)) with
    | .error e => (.error e, (QuitM ((cmdM st 501 (bytes "*")).2)).2)
    | .ok msg =>
      match a.next s msg (code == 334) with
      | (.error se, _) => (.error (.strat se), (QuitM ((cmdM st 501 (bytes "*")).2)).2)
      | (.ok none, _) => (.ok (), st)
      | (.ok (some resp), s1) =>
        match cmdM st 0 (b64Encode resp) with
        | (.error e, st1) => (.error e, st1)
        | (.ok (code2, msg642), st1) => authLoop a fuel s1 st1 code2 msg642

/-- Model of `Client.Auth`: greet, run the strategy's start step (an error
there Quits and surfaces the error), send `AUTH <mech> <resp64>` (trimmed),
then run the challenge loop. -/
def AuthM {σ : Type} (a : AuthStrat σ) (s0 : σ) (st : ClientSt) :
    Except SErr Unit × ClientSt :=
  match helloM st with
  | (.error e, st1) => (.error e, st1)
  | (.ok _, st1) =>
    match a.start s0 ⟨st1.serverName, st1.isTLS, st1.auth⟩ with
    | (.error se, _) => (.error (.strat se), (QuitM st1).2)
    | (.ok (mech, resp), s1) =>
      match cmdM st1 0 (trimSpaceB (bytes "AUTH " ++ mech ++ [32] ++ b64Encode resp)) with
      | (.error e, st2) => (.error e, st2)
      | (.ok (code, msg64), st2) => authLoop a (st2.script.length + 1) s1 st2 code msg64

/-- Model of `Client.Extension`: greet, then look the upper-cased name up in
the extension map. -/
def ExtensionM (st : ClientSt) (ext : List Nat) : (Bool × List Nat) × ClientSt :=
  match helloM st with
  | (.error _, st1) => ((false, []), st1)
  | (.ok _, st1) =>
    if st1.extSet = false then ((false, []), st1)
    else
      match extGet st1.ext (upperB ext) with
      | some param => ((true, param), st1)
      | none => ((false, []), st1)

/-- Model of `Client.StartTLS`: greet, send STARTTLS (expect 220), upgrade
the connection to TLS (re-creating the transport via the cached wrapper) and
re-run EHLO. -/
def StartTLSM (st : ClientSt) : Except SErr Unit × ClientSt :=
  match helloM st with
  | (.error e, st1) => (.error e, st1)
  | (.ok _, st1) =>
    match cmdM st1 220 (bytes "STARTTLS") with
    | (.error e, st2) => (.error e, st2)
    | (.ok _, st2) => ehloM { st2 with isTLS := true }

/-- The `defer`red cleanup of `NewClient`: on error the client (hence the
textproto connection) is closed before returning. -/
def failClose (e : SErr) (st : ClientSt) : Except SErr Unit × ClientSt :=
  (.error e, { st with closed := true })

/-- Model of `NewClient`: read the 220 greeting (closing on failure), say
Hello, negotiate STARTTLS when requested on an unencrypted connection
(failing with the not-offered error when the extension is absent), then
authenticate when a strategy is supplied and AUTH was advertised; every error
path closes the connection. -/
def NewClientM {σ : Type} (script : List (Nat × List Nat)) (strat : Option (AuthStrat σ × σ))
    (serverName : List Nat) (useSTARTTLS alreadyTLS : Bool) :
    Except SErr Unit × ClientSt :=
  match readResponse { serverName := serverName, isTLS := alreadyTLS, script := script } 220 with
  | (.error e, st1) => failClose e st1
  | (.ok _, st1) =>
    match HelloM st1 (bytes "localhost") with
    | (.error e, st2) => failClose e st2
    | (.ok _, st2) =>
      match ((if st2.isTLS = false ∧ useSTARTTLS = true then
               match ExtensionM st2 (bytes "STARTTLS") with
               | ((true, _), st3) => StartTLSM st3
               | ((false, _), st3) => (.error .starttlsNotOffered, st3)
             else (.ok (), st2)) : Except SErr Unit × ClientSt) with
      | (.error e, st3) => failClose e st3
      | (.ok _, st3) =>
        match strat with
        | none => (.ok (), st3)
        | some (a, s0) =>
          match ExtensionM st3 (bytes "AUTH") with
          | ((true, _), st4) =>
            (match AuthM a s0 st4 with
             | (.error e, st5) => failClose e st5
             | (.ok _, st5) => (.ok (), st5))
          | ((false, _), st4) => (.ok (), st4)

/-- A strategy whose start step fails. -/
def failStartStrat : AuthStrat Unit where
  start := fun s _ => (.error (bytes "boom"), s)
  next := fun s _ _ => (.ok none, s)

/-- A strategy that answers `k` challenges with "ok" and then fails. -/
def failAtStrat (e : List Nat) : AuthStrat Nat where
  start := fun s _ => (.ok (bytes "MECH", bytes "init"), s)
  next := fun s _ _ => if s = 0 then (.error e, s) else (.ok (some (bytes "ok")), s - 1)


/-- Fixture: a greeted client with one scripted 250 response. -/
def stW250 : ClientSt := { didHello := true, script := [(250, bytes "ok")] }

/-- Fixture: a greeted client with no scripted responses. -/
def stWGreeted : ClientSt := { didHello := true }

/-- Fixture: a greeted client advertising 8BITMIME. -/
def stW8BIT : ClientSt :=
  { didHello := true, extSet := true, ext := [(bytes "8BITMIME", [])],
    script := [(250, bytes "ok")] }

/-- Fixture: a greeted client with one scripted 221 response. -/
def stW221 : ClientSt := { didHello := true, script := [(221, bytes "bye")] }

/-- Fixture: a greeted client scripted with one 334 challenge then a 221. -/
def stW334 : ClientSt :=
  { didHello := true, script := [(334, b64Encode (bytes "c1")), (221, bytes "bye")] }


/-! ## Well-formedness predicates and fixtures for the round-trip theorems -/

/-- A header field name that parses back unchanged: nonempty, printable,
colon- and whitespace-free. -/
abbrev goodKeyP (k : List Nat) : Prop := k ≠ [] ∧ ∀ b ∈ k, 33 ≤ b ∧ b ≤ 126 ∧ b ≠ 58

/-- A header field value that parses back unchanged: nonempty printable ASCII
with no leading or trailing space. -/
abbrev goodValP (v : List Nat) : Prop :=
  v ≠ [] ∧ (∀ b ∈ v, 32 ≤ b ∧ b ≤ 126) ∧ v.head? ≠ some 32 ∧ v.getLast? ≠ some 32

/-- A plain header value: parses back unchanged and carries no RFC 2047
encoded word. -/
abbrev plainHdrVal (v : List Nat) : Prop :=
  goodValP v ∧ containsSubB v (bytes "=?") = false

/-- One `Key: value` CRLF wire line. -/
def renderPlainLine (kv : List Nat × List Nat) : List Nat :=
  kv.1 ++ bytes ": " ++ kv.2 ++ [13, 10]

/-- A block of wire header lines. -/
def renderPlainLines (hl : List (List Nat × List Nat)) : List Nat :=
  (hl.map renderPlainLine).flatten

/-- Is the first byte of the remainder unable to start a folded continuation
line (neither space nor tab)? -/
def restHeadOK (rest : List Nat) : Prop :=
  match rest.head? with
  | some b => ¬(b = 32 ∨ b = 9)
  | none => True

/-- Fixture for the C1 counterexample: a plaintext-only message whose body is
`=` and whose To has two addresses. -/
def eC1cex : Email :=
  { From := bytes "f@a.com", To := [bytes "a@b.com", bytes "c@d.com"],
    Subject := bytes "s", Text := bytes "=" }

/-- Fixture date header value. -/
def dateFix : List Nat := bytes "Mon, 01 Jan 2024 00:00:00 +0000"

/-- Fixture Message-Id header value. -/
def midFix : List Nat := bytes "<1.2.3@localhost>"

/-- The family of plaintext-only messages for the amended round-trip claim:
one To address, no HTML, no attachments, no custom headers. -/
def eC1rt (f a s t : List Nat) : Email :=
  { From := f, To := [a], Subject := s, Text := t }

/-- The ordered `Key: value` lines that `Email.Bytes` writes for the
plaintext-only family. -/
def c1Lines (f a s date msgid : List Nat) : List (List Nat × List Nat) :=
  [(bytes "To", a), (bytes "Subject", s), (bytes "Message-Id", msgid),
   (bytes "From", f), (bytes "Date", date), (bytes "MIME-Version", bytes "1.0"),
   (bytes "Content-Type", bytes "text/plain; charset=UTF-8"),
   (bytes "Content-Transfer-Encoding", bytes "quoted-printable")]

/-- The header map obtained by re-reading the plaintext-only wire form. -/
def c1Map (f a s date msgid : List Nat) : HdrMap :=
  [(bytes "To", [a]), (bytes "Subject", [s]), (bytes "Message-Id", [msgid]),
   (bytes "From", [f]), (bytes "Date", [date]), (bytes "Mime-Version", [bytes "1.0"]),
   (bytes "Content-Type", [bytes "text/plain; charset=UTF-8"]),
   (bytes "Content-Transfer-Encoding", [bytes "quoted-printable"])]

/-- `c1Map` after the decoder deletes the address and subject fields. -/
def c1MapDel (date msgid : List Nat) : HdrMap :=
  [(bytes "Message-Id", [msgid]), (bytes "Date", [date]),
   (bytes "Mime-Version", [bytes "1.0"]),
   (bytes "Content-Type", [bytes "text/plain; charset=UTF-8"]),
   (bytes "Content-Transfer-Encoding", [bytes "quoted-printable"])]

/-! # Theorems -/

theorem b64Val_b64Char : ∀ n < 64, b64Val (b64Char n) = some n := by decide

theorem b64Char_ne_61 (n : Nat) : b64Char n ≠ 61 := by
  unfold b64Char
  split <;> try omega
  split <;> try omega
  split <;> try omega
  split <;> omega

theorem b64Char_isB64 (n : Nat) : isB64Byte (b64Char n) = true := by
  by_cases h : n < 64
  · simp [isB64Byte, b64Val_b64Char n h]
  · have : b64Char n = 47 := by unfold b64Char; split <;> try omega
                                split <;> try omega
                                split <;> try omega
                                split <;> omega
    simp [this, isB64Byte, b64Val]

theorem b64Encode_length : ∀ l : List Nat, (b64Encode l).length = (l.length + 2) / 3 * 4 := by
  intro l
  induction l using b64Encode.induct <;> simp_all [b64Encode] <;> omega

theorem b64Encode_append (l1 l2 : List Nat) (h : l1.length % 3 = 0) :
    b64Encode (l1 ++ l2) = b64Encode l1 ++ b64Encode l2 := by
  induction l1 using b64Encode.induct with
  | case1 b1 b2 b3 rest ih =>
    simp only [List.length_cons] at h
    have hr := ih (by omega)
    simp [b64Encode, hr]
  | case2 b1 b2 => simp at h
  | case3 b1 => simp at h
  | case4 => simp [b64Encode]

theorem b64Decode_b64Encode (l : List Nat) (hl : ∀ x ∈ l, x < 256) :
    b64Decode (b64Encode l) = some l := by
  induction l using b64Encode.induct with
  | case1 b1 b2 b3 rest ih =>
    have h1 : b1 < 256 := hl b1 (by simp)
    have h2 : b2 < 256 := hl b2 (by simp)
    have h3 : b3 < 256 := hl b3 (by simp)
    have ih' := ih (fun x hx => hl x (by simp [hx]))
    simp only [b64Encode, b64Decode]
    rw [b64Val_b64Char _ (by omega), b64Val_b64Char _ (by omega),
        b64Val_b64Char _ (by omega), b64Val_b64Char _ (by omega)]
    simp only [b64Char_ne_61 _, false_and, and_false, if_false, ih']
    have e1 : b1 / 4 * 4 + (b1 % 4 * 16 + b2 / 16) / 16 = b1 := by omega
    have e2 : (b1 % 4 * 16 + b2 / 16) % 16 * 16 + (b2 % 16 * 4 + b3 / 64) / 4 = b2 := by omega
    have e3 : (b2 % 16 * 4 + b3 / 64) % 4 * 64 + b3 % 64 = b3 := by omega
    rw [e1, e2, e3]
  | case2 b1 b2 =>
    have h1 : b1 < 256 := hl b1 (by simp)
    have h2 : b2 < 256 := hl b2 (by simp)
    simp only [b64Encode, b64Decode]
    rw [b64Val_b64Char _ (by omega), b64Val_b64Char _ (by omega),
        b64Val_b64Char _ (by omega)]
    simp only [b64Char_ne_61 _, false_and, and_false, if_false, if_true, and_true, and_self]
    have e1 : b1 / 4 * 4 + (b1 % 4 * 16 + b2 / 16) / 16 = b1 := by omega
    have e2 : (b1 % 4 * 16 + b2 / 16) % 16 * 16 + b2 % 16 * 4 / 4 = b2 := by omega
    rw [e1, e2]
  | case3 b1 =>
    have h1 : b1 < 256 := hl b1 (by simp)
    simp only [b64Encode, b64Decode]
    rw [b64Val_b64Char _ (by omega), b64Val_b64Char _ (by omega)]
    simp only [and_self, and_true, if_true]
    have e1 : b1 / 4 * 4 + b1 % 4 * 16 / 16 = b1 := by omega
    rw [e1]
  | case4 => rfl

theorem isB64Byte_61 : isB64Byte 61 = true := by decide

theorem b64Encode_isB64 : ∀ l : List Nat, ∀ c ∈ b64Encode l, isB64Byte c = true := by
  intro l
  induction l using b64Encode.induct with
  | case1 b1 b2 b3 rest ih =>
    intro c hc
    simp only [b64Encode, List.mem_cons] at hc
    rcases hc with h | h | h | h | h
    · exact h ▸ b64Char_isB64 _
    · exact h ▸ b64Char_isB64 _
    · exact h ▸ b64Char_isB64 _
    · exact h ▸ b64Char_isB64 _
    · exact ih c h
  | case2 b1 b2 =>
    intro c hc
    simp only [b64Encode, List.mem_cons, List.not_mem_nil, or_false] at hc
    rcases hc with h | h | h | h
    · exact h ▸ b64Char_isB64 _
    · exact h ▸ b64Char_isB64 _
    · exact h ▸ b64Char_isB64 _
    · exact h ▸ isB64Byte_61
  | case3 b1 =>
    intro c hc
    simp only [b64Encode, List.mem_cons, List.not_mem_nil, or_false] at hc
    rcases hc with h | h | h | h
    · exact h ▸ b64Char_isB64 _
    · exact h ▸ b64Char_isB64 _
    · exact h ▸ isB64Byte_61
    · exact h ▸ isB64Byte_61
  | case4 => intro c hc; simp [b64Encode] at hc

theorem chunks76Aux_nil (f : Nat) : chunks76Aux f [] = [] := by
  cases f <;> simp [chunks76Aux]

theorem chunks76Aux_fuel : ∀ f1 f2 : Nat, ∀ l : List Nat, l.length < f1 → l.length < f2 →
    chunks76Aux f1 l = chunks76Aux f2 l := by
  intro f1
  induction f1 with
  | zero => intro f2 l h1 _; omega
  | succ f1' ih =>
    intro f2 l h1 h2
    cases f2 with
    | zero => omega
    | succ f2' =>
      simp only [chunks76Aux]
      by_cases hl : l = []
      · simp [hl]
      · have hlen : 0 < l.length := List.length_pos.mpr hl
        rw [if_neg hl, if_neg hl]
        rw [ih f2' (l.drop 76) (by simp; omega) (by simp; omega)]

theorem base64WrapAux_fuel : ∀ f1 f2 : Nat, ∀ l : List Nat, l.length < f1 → l.length < f2 →
    base64WrapAux f1 l = base64WrapAux f2 l := by
  intro f1
  induction f1 with
  | zero => intro f2 l h1 _; omega
  | succ f1' ih =>
    intro f2 l h1 h2
    cases f2 with
    | zero => omega
    | succ f2' =>
      simp only [base64WrapAux]
      by_cases h57 : 57 ≤ l.length
      · simp only [h57, if_true]
        rw [ih f2' (l.drop 57) (by simp; omega) (by simp; omega)]
      · rw [if_neg h57, if_neg h57]

theorem chunks76_join : ∀ n : Nat, ∀ l : List Nat, l.length < n →
    (chunks76Aux n l).flatten = l := by
  intro n
  induction n with
  | zero => intro l hl; omega
  | succ n' ih =>
    intro l hl
    simp only [chunks76Aux]
    by_cases he : l = []
    · simp [he]
    · have hpos : 0 < l.length := List.length_pos.mpr he
      rw [if_neg he]
      simp only [List.flatten_cons]
      rw [ih (l.drop 76) (by simp; omega)]
      exact List.take_append_drop 76 l

theorem chunks76Aux_ne_nil (n : Nat) (l : List Nat) (hl : l.length < n) (hne : l ≠ []) :
    chunks76Aux n l ≠ [] := by
  intro hcon
  have := chunks76_join n l hl
  rw [hcon] at this
  simp at this
  exact hne this

theorem chunks76Aux_props : ∀ n : Nat, ∀ l : List Nat, l.length < n →
    (∀ c ∈ (chunks76Aux n l).dropLast, c.length = 76) ∧
    (∀ c ∈ chunks76Aux n l, 0 < c.length ∧ c.length ≤ 76) := by
  intro n
  induction n with
  | zero => intro l hl; omega
  | succ n' ih =>
    intro l hl
    simp only [chunks76Aux]
    by_cases he : l = []
    · simp [he]
    · have hpos : 0 < l.length := List.length_pos.mpr he
      rw [if_neg he]
      have ihl := ih (l.drop 76) (by simp; omega)
      constructor
      · intro c hc
        by_cases hd : l.drop 76 = []
        · rw [hd, chunks76Aux_nil] at hc
          simp at hc
        · have hdl : 0 < (l.drop 76).length := List.length_pos.mpr hd
          have hlong : 76 < l.length := by simp at hdl; omega
          have hch : chunks76Aux n' (l.drop 76) ≠ [] :=
            chunks76Aux_ne_nil n' (l.drop 76) (by simp; omega) hd
          rw [List.dropLast_cons_of_ne_nil hch] at hc
          rcases List.mem_cons.mp hc with h | h
          · rw [h]; simp; omega
          · exact ihl.1 c h
      · intro c hc
        rcases List.mem_cons.mp hc with h | h
        · rw [h]; simp; omega
        · exact ihl.2 c h

theorem base64Wrap_renderLines : ∀ n : Nat, ∀ b : List Nat, b.length < n →
    base64Wrap b = renderLines (chunks76 (b64Encode b)) := by
  intro n
  induction n with
  | zero => intro b hb; omega
  | succ n' ih =>
    intro b hb
    by_cases h57 : 57 ≤ b.length
    · have htl : (b.take 57).length = 57 := by simp; omega
      have hsplit : b64Encode b = b64Encode (b.take 57) ++ b64Encode (b.drop 57) := by
        rw [← b64Encode_append _ _ (by rw [htl])]
        rw [List.take_append_drop]
      have hel : (b64Encode (b.take 57)).length = 76 := by
        rw [b64Encode_length, htl]
      have hdrop : (b.drop 57).length = b.length - 57 := List.length_drop 57 b
      have hlen2 : (b64Encode (b.take 57) ++ b64Encode (b.drop 57)).length =
          76 + (b64Encode (b.drop 57)).length := by simp [hel]
      have hne2 : b64Encode (b.take 57) ++ b64Encode (b.drop 57) ≠ [] := by
        intro hcon
        rw [hcon] at hlen2
        simp only [List.length_nil] at hlen2
        omega
      simp only [base64Wrap, base64WrapAux, h57, if_true]
      rw [base64WrapAux_fuel b.length ((b.drop 57).length + 1) (b.drop 57)
            (by rw [hdrop]; omega) (by omega)]
      rw [show base64WrapAux ((b.drop 57).length + 1) (b.drop 57) = base64Wrap (b.drop 57)
            from rfl]
      rw [hsplit]
      simp only [chunks76]
      simp only [chunks76Aux]
      rw [if_neg hne2]
      rw [List.take_append_of_le_length (le_of_eq hel.symm),
          List.take_of_length_le (le_of_eq hel),
          List.drop_append_of_le_length (le_of_eq hel.symm),
          List.drop_eq_nil_of_le (le_of_eq hel)]
      simp only [List.nil_append]
      rw [chunks76Aux_fuel ((b64Encode (b.take 57) ++ b64Encode (b.drop 57)).length)
            ((b64Encode (b.drop 57)).length + 1) (b64Encode (b.drop 57))
            (by rw [hlen2]; omega) (by omega)]
      rw [show chunks76Aux ((b64Encode (b.drop 57)).length + 1) (b64Encode (b.drop 57)) =
            chunks76 (b64Encode (b.drop 57)) from rfl]
      simp only [renderLines]
      rw [ih (b.drop 57) (by rw [hdrop]; omega)]
    · by_cases hemp : b = []
      · simp [hemp, base64Wrap, base64WrapAux, b64Encode, chunks76, chunks76Aux, renderLines]
      · have hpos : 0 < b.length := List.length_pos.mpr hemp
        have helen : (b64Encode b).length = (b.length + 2) / 3 * 4 := b64Encode_length b
        have hebound : (b64Encode b).length ≤ 76 := by omega
        have hepos : 0 < (b64Encode b).length := by omega
        have heemp : b64Encode b ≠ [] := by
          intro hcon
          rw [hcon] at hepos
          simp at hepos
        simp only [base64Wrap, base64WrapAux]
        rw [if_neg h57, if_neg hemp]
        simp only [chunks76, chunks76Aux]
        rw [if_neg heemp]
        rw [List.take_of_length_le hebound, List.drop_eq_nil_of_le hebound, chunks76Aux_nil]
        simp [renderLines]

theorem chunks76_flatten (l : List Nat) : (chunks76 l).flatten = l :=
  chunks76_join (l.length + 1) l (Nat.lt_succ_self _)

theorem chunks76_props (l : List Nat) :
    (∀ c ∈ (chunks76 l).dropLast, c.length = 76) ∧
    (∀ c ∈ chunks76 l, 0 < c.length ∧ c.length ≤ 76) :=
  chunks76Aux_props (l.length + 1) l (Nat.lt_succ_self _)

/-- Claim C4: `base64Wrap` writes the standard base64 encoding of its input
split into CRLF-terminated lines; every line before the last has exactly 76
base64 characters; every line is a nonempty run of at most 76 base64-alphabet
(or padding) bytes followed by CRLF; and concatenating the lines and
base64-decoding them recovers the input exactly. -/
theorem claim_C4 (b : List Nat) (hb : ∀ x ∈ b, x < 256) :
    base64Wrap b = renderLines (chunks76 (b64Encode b)) ∧
    (∀ c ∈ (chunks76 (b64Encode b)).dropLast, c.length = 76) ∧
    (∀ c ∈ chunks76 (b64Encode b), 0 < c.length ∧ c.length ≤ 76 ∧
       ∀ x ∈ c, isB64Byte x = true) ∧
    b64Decode (chunks76 (b64Encode b)).flatten = some b := by
  refine ⟨base64Wrap_renderLines (b.length + 1) b (Nat.lt_succ_self _), ?_, ?_, ?_⟩
  · exact (chunks76_props (b64Encode b)).1
  · intro c hc
    have hp := (chunks76_props (b64Encode b)).2 c hc
    refine ⟨hp.1, hp.2, ?_⟩
    intro x hx
    have hmem : x ∈ (chunks76 (b64Encode b)).flatten := List.mem_flatten.mpr ⟨c, hc, hx⟩
    rw [chunks76_flatten (b64Encode b)] at hmem
    exact b64Encode_isB64 b x hmem
  · rw [chunks76_flatten (b64Encode b)]
    exact b64Decode_b64Encode b hb

/-- Witness for C4 at the concrete input "hello, base64 wrap!". -/
theorem claim_C4_witness :
    (∀ x ∈ bytes "hello, base64 wrap!", x < 256) ∧
    (base64Wrap (bytes "hello, base64 wrap!") =
       renderLines (chunks76 (b64Encode (bytes "hello, base64 wrap!"))) ∧
     (∀ c ∈ (chunks76 (b64Encode (bytes "hello, base64 wrap!"))).dropLast, c.length = 76) ∧
     (∀ c ∈ chunks76 (b64Encode (bytes "hello, base64 wrap!")), 0 < c.length ∧
        c.length ≤ 76 ∧ ∀ x ∈ c, isB64Byte x = true) ∧
     b64Decode (chunks76 (b64Encode (bytes "hello, base64 wrap!"))).flatten =
       some (bytes "hello, base64 wrap!")) :=
  ⟨by decide, claim_C4 (bytes "hello, base64 wrap!") (by decide)⟩


theorem parseAddrList_err (parse : List Nat → Except (List Nat) MailAddress) :
    ∀ l : List (List Nat), ∀ m, firstParseErr parse l = some m →
    parseAddrList parse l = .error m := by
  intro l
  induction l with
  | nil => intro m h; simp [firstParseErr] at h
  | cons a rest ih =>
    intro m h
    simp only [firstParseErr] at h
    simp only [parseAddrList]
    cases hp : parse a with
    | error e => rw [hp] at h; simp at h; simp [h]
    | ok addr => rw [hp] at h; simp at h; rw [ih m h]

theorem parseAddrList_map (parse : List Nat → Except (List Nat) MailAddress)
    (f : List Nat → MailAddress) :
    ∀ l : List (List Nat), (∀ a ∈ l, parse a = .ok (f a)) →
    parseAddrList parse l = .ok (l.map f) := by
  intro l
  induction l with
  | nil => intro _; simp [parseAddrList]
  | cons a rest ih =>
    intro h
    simp only [parseAddrList]
    rw [h a (by simp)]
    rw [ih (fun x hx => h x (by simp [hx]))]
    simp

/-- Claim C6: `ParseToFromAddrs` returns the missing-address error whenever
From is empty (regardless of To/Cc/Bcc), and whenever From is set but To, Cc
and Bcc are all empty; it propagates the first address parse failure; and
otherwise returns the parsed To, then Cc, then Bcc addresses in that order. -/
theorem claim_C6 (parse : List Nat → Except (List Nat) MailAddress) (e : Email) :
    (e.From = [] → ParseToFromAddrs parse e = .error .missingToOrFrom) ∧
    (e.From ≠ [] → e.To = [] → e.Cc = [] → e.Bcc = [] →
       ParseToFromAddrs parse e = .error .missingToOrFrom) ∧
    (∀ m, e.From ≠ [] → firstParseErr parse (e.To ++ e.Cc ++ e.Bcc) = some m →
       ParseToFromAddrs parse e = .error (.parseFail m)) ∧
    (∀ f : List Nat → MailAddress, e.From ≠ [] →
       (∀ a ∈ e.To ++ e.Cc ++ e.Bcc, parse a = .ok (f a)) →
       e.To ++ e.Cc ++ e.Bcc ≠ [] →
       ParseToFromAddrs parse e = .ok ((e.To ++ e.Cc ++ e.Bcc).map f)) := by
  refine ⟨?_, ?_, ?_, ?_⟩
  · intro h
    simp [ParseToFromAddrs, h]
  · intro h h1 h2 h3
    simp [ParseToFromAddrs, h, h1, h2, h3, parseAddrList]
  · intro m h hm
    simp only [ParseToFromAddrs, if_neg h]
    rw [parseAddrList_err parse _ m hm]
  · intro f h hall hne
    simp only [ParseToFromAddrs, if_neg h]
    rw [parseAddrList_map parse f _ hall]
    have : ((e.To ++ e.Cc ++ e.Bcc).map f).length ≠ 0 := by
      simp
      intro h1 h2 h3
      exact hne (by simp [h1, h2, h3])
    simp only [if_neg this]

/-- Witness for C6: each branch exercised at concrete inputs. -/
theorem claim_C6_witness :
    (ParseToFromAddrs (fun _ => .error (bytes "x"))
       { From := [], To := [bytes "a@b.c"] } = .error .missingToOrFrom) ∧
    (ParseToFromAddrs (fun _ => .error (bytes "x"))
       { From := bytes "f@a.c" } = .error .missingToOrFrom) ∧
    (ParseToFromAddrs
       (fun s => if s = bytes "bad" then .error (bytes "boom") else .ok ⟨[], s⟩)
       { From := bytes "f@a.c", To := [bytes "a@b.c", bytes "bad"] } =
       .error (.parseFail (bytes "boom"))) ∧
    (ParseToFromAddrs (fun s => .ok ⟨[], s⟩)
       { From := bytes "f@a.c", To := [bytes "a@b.c"], Cc := [bytes "c@b.c"],
         Bcc := [bytes "d@b.c"] } =
       .ok [⟨[], bytes "a@b.c"⟩, ⟨[], bytes "c@b.c"⟩, ⟨[], bytes "d@b.c"⟩]) := by
  refine ⟨?_, ?_, ?_, ?_⟩
  · exact (claim_C6 _ _).1 (by decide)
  · exact (claim_C6 _ _).2.1 (by decide) rfl rfl rfl
  · exact (claim_C6 _ _).2.2.1 (bytes "boom") (by decide) (by decide)
  · exact (claim_C6 _ _).2.2.2 (fun s => ⟨[], s⟩) (by decide)
      (fun a _ => rfl) (by decide)

/-- Claim C9: the LOGIN strategy's start step returns mechanism "LOGIN", the
username as initial response and no error; `Next` with `more = true` answers a
challenge normalising (trim whitespace, trim one trailing colon, lower-case) to
"username" with the username, one normalising to "password" with the password,
and any other challenge with the unexpected-challenge error; `Next` with
`more = false` returns no response and no error. -/
theorem claim_C9 (a : LoginAuth) :
    (∀ si : ServerInfoM, loginStart a si = (bytes "LOGIN", a.username, none)) ∧
    (∀ ch, loginNormalize ch = bytes "username" →
       loginNext a ch true = (some a.username, none)) ∧
    (∀ ch, loginNormalize ch = bytes "password" →
       loginNext a ch true = (some a.password, none)) ∧
    (∀ ch, loginNormalize ch ≠ bytes "username" → loginNormalize ch ≠ bytes "password" →
       loginNext a ch true =
         (none, some (bytes "unexpected server challenge: " ++ loginNormalize ch))) ∧
    (∀ ch, loginNext a ch false = (none, none)) := by
  refine ⟨fun _ => rfl, ?_, ?_, ?_, fun ch => rfl⟩
  · intro ch h
    simp [loginNext, h]
  · intro ch h
    have hd : ¬((bytes "password" : List Nat) = bytes "username") := by decide
    simp [loginNext, h, hd]
  · intro ch h1 h2
    simp [loginNext, h1, h2]

/-- Witness for C9 at concrete challenges. -/
theorem claim_C9_witness :
    (loginStart ⟨bytes "u", bytes "p"⟩ ⟨bytes "srv", true, []⟩ =
       (bytes "LOGIN", bytes "u", none)) ∧
    (loginNext ⟨bytes "u", bytes "p"⟩ (bytes " Username: ") true = (some (bytes "u"), none)) ∧
    (loginNext ⟨bytes "u", bytes "p"⟩ (bytes "PASSWORD") true = (some (bytes "p"), none)) ∧
    (loginNext ⟨bytes "u", bytes "p"⟩ (bytes "nonce") true =
       (none, some (bytes "unexpected server challenge: nonce"))) ∧
    (loginNext ⟨bytes "u", bytes "p"⟩ (bytes "whatever") false = (none, none)) := by
  refine ⟨(claim_C9 _).1 _, ?_, ?_, ?_, (claim_C9 _).2.2.2.2 _⟩
  · exact (claim_C9 _).2.1 _ (by decide)
  · exact (claim_C9 _).2.2.1 _ (by decide)
  · have h := (claim_C9 ⟨bytes "u", bytes "p"⟩).2.2.2.1 (bytes "nonce")
      (by decide) (by decide)
    rw [h]
    decide


theorem hdrGet_hdrSet_self (h : HdrMap) (k v : List Nat) :
    hdrGet (hdrSet h k v) k = v := by
  induction h with
  | nil => simp [hdrSet, hdrGet, hdrValues, List.find?]
  | cons kv rest ih =>
    by_cases hk : kv.1 = k
    · simp [hdrSet, hdrGet, hdrValues, List.find?, hk]
    · simp only [hdrSet, hdrGet, hdrValues]
      rw [if_neg (by simpa using hk)]
      simp only [List.find?]
      rw [show (kv.1 == k) = false by simpa using hk]
      exact ih

theorem hdrGet_hdrSet_ne (h : HdrMap) (k k2 v : List Nat) (hne : k2 ≠ k) :
    hdrGet (hdrSet h k v) k2 = hdrGet h k2 := by
  have hb : (k == k2) = false := by
    simp only [beq_eq_false_iff_ne, ne_eq]
    exact fun hh => hne hh.symm
  induction h with
  | nil => simp [hdrSet, hdrGet, hdrValues, List.find?, hb]
  | cons kv rest ih =>
    by_cases hk : kv.1 = k
    · simp only [hdrSet, hdrGet, hdrValues]
      rw [if_pos (by simpa using hk)]
      simp only [List.find?, hb, hk]
    · simp only [hdrSet, hdrGet, hdrValues]
      rw [if_neg (by simpa using hk)]
      simp only [List.find?]
      cases hcase : kv.1 == k2 with
      | true => rfl
      | false => simpa only [hdrGet, hdrValues] using ih

/-- Claim C5: a multipart entity whose Content-Type carries no boundary
parameter fails with the missing-boundary error; an entity with no
Content-Type at all does not fail: the top-level entity becomes a single leaf
with the defaulted `text/plain; charset=us-ascii` header, and a sub-part
missing its Content-Type likewise becomes a leaf with the defaulted header. -/
theorem claim_C5 :
    (∀ (hs : HdrMap) (body v mt : List Nat) (params : List (List Nat × List Nat)),
       hdrHas hs (bytes "Content-Type") = true →
       hdrGet hs (bytes "Content-Type") = v →
       parseMediaType v = some (mt, params) →
       startsWithB mt (bytes "multipart/") = true →
       paramsGet params (bytes "boundary") = none →
       parseMIMEParts hs body = .error .missingBoundary) ∧
    (∀ (hs : HdrMap) (body : List Nat),
       hdrHas hs (bytes "Content-Type") = false →
       parseMIMEParts hs body =
         .ok [⟨hdrSet hs (bytes "Content-Type") defaultContentType, body⟩]) ∧
    (∀ (rec : HdrMap → List Nat → Except MailErr (List MimePart))
       (raw rawBody : List Nat) (hdr : HdrMap) (rest : List (List Nat))
       (ps2 : List MimePart),
       mkPart raw = some (hdr, rawBody) →
       hdrHas hdr (bytes "Content-Type") = false →
       hdrGet hdr (bytes "Content-Transfer-Encoding") ≠ bytes "base64" →
       processParts rec rest = .ok ps2 →
       processParts rec (raw :: rest) =
         .ok (⟨hdrSet hdr (bytes "Content-Type") defaultContentType, rawBody⟩ :: ps2)) := by
  have hdmt : parseMediaType defaultContentType =
      some (bytes "text/plain", [(bytes "charset", bytes "us-ascii")]) := by decide
  have hnm : startsWithB (bytes "text/plain") (bytes "multipart/") = false := by decide
  refine ⟨?_, ?_, ?_⟩
  · intro hs body v mt params hhas hget hmt hmp hbnd
    rw [parseMIMEParts, show body.length + 8 = (body.length + 7) + 1 from rfl]
    simp only [parseMIMEPartsAux, hhas, if_true, hget, hmt, hmp, if_true, hbnd]
  · intro hs body hhas
    rw [parseMIMEParts, show body.length + 8 = (body.length + 7) + 1 from rfl]
    simp only [parseMIMEPartsAux, hhas, Bool.false_eq_true, if_false]
    rw [hdrGet_hdrSet_self, hdmt]
    simp only [hnm, Bool.false_eq_true, if_false]
  · intro rec raw rawBody hdr rest ps2 hmk hhas hcte hrest
    simp only [processParts, hmk, hhas, Bool.false_eq_true, if_false]
    rw [hdrGet_hdrSet_self, hdmt]
    simp only [hnm, Bool.false_eq_true, if_false]
    rw [hdrGet_hdrSet_ne _ _ _ _ (by decide), if_neg hcte, hrest]
    simp

/-- Witness for C5 at concrete inputs: a boundary-less multipart header, a
header-less top-level entity, and a Content-Type-less sub-part. -/
theorem claim_C5_witness :
    (parseMIMEParts [(bytes "Content-Type", [bytes "multipart/mixed; charset=x"])]
       (bytes "ignored") = .error .missingBoundary) ∧
    (parseMIMEParts [(bytes "X-Other", [bytes "1"])] (bytes "plain body") =
       .ok [⟨hdrSet [(bytes "X-Other", [bytes "1"])] (bytes "Content-Type")
               defaultContentType, bytes "plain body"⟩]) ∧
    (processParts (fun _ _ => .error .depthExceeded)
       [bytes "X-Note: hi\r\n\r\nsub body"] =
       .ok [⟨hdrSet [(bytes "X-Note", [bytes "hi"])] (bytes "Content-Type")
               defaultContentType, bytes "sub body"⟩]) := by
  refine ⟨?_, ?_, ?_⟩
  · exact (claim_C5).1 _ _ (bytes "multipart/mixed; charset=x") (bytes "multipart/mixed")
      [(bytes "charset", bytes "x")] (by decide) (by decide) (by decide) (by decide) (by decide)
  · exact (claim_C5).2.1 _ _ (by decide)
  · exact (claim_C5).2.2 _ _ (bytes "sub body") [(bytes "X-Note", [bytes "hi"])] [] []
      (by decide) (by decide) (by decide) rfl

/-- Claim C2 as stated is false: the selection loop assigns on every matching
leaf, so with two `text/plain` leaves the SECOND (not the first) body ends up
in `Text`.  Concretely, this two-part multipart/mixed stream flattens to the
leaf bodies "first body", "second body" in order, and decoding yields
`Text = "second body"`. -/
theorem claim_C2_counterexample :
    ((NewEmailFromReader (bytes "From: f@a.com\r\nContent-Type: multipart/mixed; boundary=XBOUND\r\n\r\n--XBOUND\r\nContent-Type: text/plain\r\n\r\nfirst body\r\n--XBOUND\r\nContent-Type: text/plain\r\n\r\nsecond body\r\n--XBOUND--\r\n")).map
        (fun em => em.Text) = .ok (bytes "second body")) ∧
    ((parseMIMEParts [(bytes "Content-Type", [bytes "multipart/mixed; boundary=XBOUND"])]
        (bytes "--XBOUND\r\nContent-Type: text/plain\r\n\r\nfirst body\r\n--XBOUND\r\nContent-Type: text/plain\r\n\r\nsecond body\r\n--XBOUND--\r\n")).map
        (fun ps => ps.map (fun p => (hdrGet p.header (bytes "Content-Type"), p.body))) =
      .ok [(bytes "text/plain", bytes "first body"),
           (bytes "text/plain", bytes "second body")]) ∧
    bytes "second body" ≠ bytes "first body" := by
  refine ⟨by decide, by decide, by decide⟩


/-- Claim C2, amended: the selection loop assigns `Text` (resp. `HTML`) on
every `text/plain` (resp. `text/html`) leaf in order, so when several such
leaves exist the body of the LAST one in flattening order wins. -/
theorem claim_C2_amended (ps : List MimePart) (e0 em : Email)
    (h : assignParts e0 ps = .ok em) :
    em.Text = (match (ps.filter (isLeafOf (bytes "text/plain"))).getLast? with
               | some p => p.body
               | none => e0.Text) ∧
    em.HTML = (match (ps.filter (isLeafOf (bytes "text/html"))).getLast? with
               | some p => p.body
               | none => e0.HTML) := by
  induction ps generalizing e0 with
  | nil =>
    simp only [assignParts] at h
    cases h
    simp
  | cons p rest ih =>
    simp only [assignParts] at h
    by_cases hct : hdrGet p.header (bytes "Content-Type") = []
    · rw [if_pos hct] at h; cases h
    · rw [if_neg hct] at h
      cases hmt : parseMediaType (hdrGet p.header (bytes "Content-Type")) with
      | none => simp only [hmt] at h; cases h
      | some ctp =>
        obtain ⟨ct, params⟩ := ctp
        simp only [hmt] at h
        have hplain : isLeafOf (bytes "text/plain") p = (ct == bytes "text/plain") := by
          simp [isLeafOf, hmt]
        have hhtml : isLeafOf (bytes "text/html") p = (ct == bytes "text/html") := by
          simp [isLeafOf, hmt]
        by_cases hp : ct = bytes "text/plain"
        · rw [if_pos hp] at h
          have ihh := ih _ h
          constructor
          · rw [List.filter_cons_of_pos (by rw [hplain, hp]; exact beq_self_eq_true _)]
            rcases hfl : rest.filter (isLeafOf (bytes "text/plain")) with _ | ⟨q, t⟩
            · rw [hfl] at ihh
              have := ihh.1
              simpa using this
            · rw [hfl] at ihh
              rw [List.getLast?_cons_cons]
              cases hlast : (q :: t).getLast? with
              | none => exact absurd (List.getLast?_eq_none_iff.mp hlast) (by simp)
              | some z =>
                rw [hlast] at ihh
                exact ihh.1
          · rw [List.filter_cons_of_neg
              (by rw [hhtml, hp]; decide)]
            simpa using ihh.2
        · rw [if_neg hp] at h
          by_cases hh : ct = bytes "text/html"
          · rw [if_pos hh] at h
            have ihh := ih _ h
            constructor
            · rw [List.filter_cons_of_neg (by rw [hplain, hh]; decide)]
              simpa using ihh.1
            · rw [List.filter_cons_of_pos (by rw [hhtml, hh]; exact beq_self_eq_true _)]
              rcases hfl : rest.filter (isLeafOf (bytes "text/html")) with _ | ⟨q, t⟩
              · rw [hfl] at ihh
                have := ihh.2
                simpa using this
              · rw [hfl] at ihh
                rw [List.getLast?_cons_cons]
                cases hlast : (q :: t).getLast? with
                | none => exact absurd (List.getLast?_eq_none_iff.mp hlast) (by simp)
                | some z =>
                  rw [hlast] at ihh
                  exact ihh.2
          · rw [if_neg hh] at h
            have ihh := ih _ h
            constructor
            · rw [List.filter_cons_of_neg (by rw [hplain]; simpa using hp)]
              exact ihh.1
            · rw [List.filter_cons_of_neg (by rw [hhtml]; simpa using hh)]
              exact ihh.2

/-- Witness for the amended C2 at a concrete two-leaf part list. -/
theorem claim_C2_amended_witness :
    (assignParts {}
        [⟨[(bytes "Content-Type", [bytes "text/plain"])], bytes "first body"⟩,
         ⟨[(bytes "Content-Type", [bytes "text/plain"])], bytes "second body"⟩] =
      .ok { Text := bytes "second body" }) ∧
    ({ Text := bytes "second body" : Email }.Text = bytes "second body") := by
  refine ⟨by decide, ?_⟩
  have := (claim_C2_amended
    [⟨[(bytes "Content-Type", [bytes "text/plain"])], bytes "first body"⟩,
     ⟨[(bytes "Content-Type", [bytes "text/plain"])], bytes "second body"⟩]
    {} { Text := bytes "second body" } (by decide)).1
  rw [this]
  decide

/-- Claim C3: the top-level body shape chosen by `Email.Bytes` (the
`emailShape`/`topContentType` pair its rendering is driven by) agrees, for
every message, with the specification's five ordered cases: mixed with an
alternative sub-part when attachments and both bodies are present; mixed with
the single body part (if any) when attachments are present; alternative with
two parts for both bodies and no attachments; single-part text/html
quoted-printable for HTML only; single-part text/plain quoted-printable
otherwise. -/
theorem claim_C3 (e : Email) (bnd : List Nat) :
    emailShape e = specShape e ∧ topContentType e bnd = specTopContentType e bnd := by
  by_cases ha : e.Attachments = [] <;> by_cases ht : e.Text = [] <;>
    by_cases hh : e.HTML = [] <;>
      simp [emailShape, specShape, topContentType, specTopContentType, bodyLeaves,
        ha, ht, hh, List.length_pos]

theorem readResponse_fields (st : ClientSt) (c : Nat) :
    ((readResponse st c).2).sent = st.sent ∧ ((readResponse st c).2).didHello = st.didHello ∧
    ((readResponse st c).2).helloError = st.helloError := by
  rcases hs : st.script with _ | ⟨⟨code, msg⟩, rest⟩ <;>
    simp only [readResponse, hs] <;> first | simp | (split <;> simp)

theorem readResponse_no_strat (st : ClientSt) (c : Nat) (e : SErr) (r : ClientSt)
    (h : readResponse st c = (.error e, r)) : ∀ x, e ≠ .strat x := by
  intro x hcon
  subst hcon
  rcases hs : st.script with _ | ⟨⟨code, msg⟩, rest⟩ <;> simp only [readResponse, hs] at h
  · simp at h
  · split at h <;> simp at h

theorem cmdM_fields (st : ClientSt) (c : Nat) (l : List Nat) :
    ((cmdM st c l).2).sent = st.sent ++ [l] ∧ ((cmdM st c l).2).didHello = st.didHello ∧
    ((cmdM st c l).2).helloError = st.helloError := by
  unfold cmdM
  have h := readResponse_fields { st with sent := st.sent ++ [l] } c
  simpa using h

theorem cmdM_no_strat (st : ClientSt) (c : Nat) (l : List Nat) (e : SErr) (r : ClientSt)
    (h : cmdM st c l = (.error e, r)) : ∀ x, e ≠ .strat x := by
  unfold cmdM at h
  exact readResponse_no_strat _ _ _ _ h

theorem QuitM_sent (st : ClientSt) (h1 : st.didHello = true) (h2 : st.helloError = none) :
    ((QuitM st).2).sent = st.sent ++ [bytes "QUIT"] := by
  have hc := cmdM_fields st 221 (bytes "QUIT")
  simp only [QuitM, helloM, h1, h2, if_true]
  rcases hm : cmdM st 221 (bytes "QUIT") with ⟨res, st2⟩
  rw [hm] at hc
  rcases res with e | ok <;> simpa using hc.1

theorem abortQuit_sent (st : ClientSt) (h1 : st.didHello = true) (h2 : st.helloError = none) :
    ((QuitM ((cmdM st 501 (bytes "*")).2)).2).sent = st.sent ++ [bytes "*", bytes "QUIT"] := by
  obtain ⟨hs1, hd1, he1⟩ := cmdM_fields st 501 (bytes "*")
  rw [QuitM_sent _ (hd1.trans h1) (he1.trans h2), hs1]
  simp

theorem authLoop_strat_abort {σ : Type} (a : AuthStrat σ) :
    ∀ (fuel : Nat) (s : σ) (st : ClientSt) (code : Nat) (msg64 : List Nat) (e : List Nat)
      (st2 : ClientSt),
      st.didHello = true → st.helloError = none →
      authLoop a fuel s st code msg64 = (.error (.strat e), st2) →
      ∃ pre, st2.sent = st.sent ++ pre ++ [bytes "*", bytes "QUIT"] := by
  intro fuel
  induction fuel with
  | zero =>
    intro s st code msg64 e st2 _ _ h
    simp [authLoop] at h
  | succ f ih =>
    intro s st code msg64 e st2 h1 h2 h
    rw [authLoop] at h
    split at h
    · rename_i e1 heq
      obtain ⟨hx, hy⟩ := Prod.mk.injEq .. ▸ h
      injection hx with hx1
      rw [hx1] at heq
      split at heq
      · split at heq <;> simp_all
      · split at heq <;> simp_all
    · rename_i msg heq
      split at h
      · rename_i se s1 hn
        obtain ⟨hx, hy⟩ := Prod.mk.injEq .. ▸ h
        refine ⟨[], ?_⟩
        rw [← hy]
        simpa using abortQuit_sent st h1 h2
      · simp at h
      · rename_i part resp s1 hn
        split at h
        · rename_i ec st1 heq2
          obtain ⟨hx, hy⟩ := Prod.mk.injEq .. ▸ h
          injection hx with hx1
          exact absurd hx1 (cmdM_no_strat _ _ _ _ _ heq2 e)
        · rename_i code2 msg642 st1 heq2
          obtain ⟨hs1, hd1, he1⟩ := cmdM_fields st 0 (b64Encode resp)
          rw [heq2] at hs1 hd1 he1
          obtain ⟨pre, hp⟩ := ih s1 st1 code2 msg642 e st2
            (hd1.trans h1) (he1.trans h2) h
          refine ⟨b64Encode resp :: pre, ?_⟩
          rw [hp, hs1]
          simp

/-- Claim C7: `Client.Mail` rejects a sender address containing CR or LF with
the line-validation error before any I/O (nothing sent, session state
unchanged); `Client.Rcpt` likewise rejects such a recipient; and for a valid
address with the 8BITMIME extension advertised, Mail sends the MAIL command
with the `BODY=8BITMIME` parameter appended. -/
theorem claim_C7 (st : ClientSt) (fromAddr toAddr : List Nat) :
    ((fromAddr.contains 13 = true ∨ fromAddr.contains 10 = true) →
       MailM st fromAddr = (.error .crlf, st)) ∧
    ((toAddr.contains 13 = true ∨ toAddr.contains 10 = true) →
       RcptM st toAddr = (.error .crlf, st)) ∧
    (st.didHello = true → st.helloError = none → st.extSet = true →
       ∀ p, extGet st.ext (bytes "8BITMIME") = some p →
       ¬(fromAddr.contains 13 = true ∨ fromAddr.contains 10 = true) →
       (MailM st fromAddr).2.sent =
         st.sent ++ [bytes "MAIL FROM:<" ++ fromAddr ++ bytes ">" ++ bytes " BODY=8BITMIME"]) := by
  refine ⟨?_, ?_, ?_⟩
  · intro h
    unfold MailM validateLine
    rw [if_pos h]
  · intro h
    unfold RcptM validateLine
    rw [if_pos h]
  · intro h1 h2 h3 p hp h5
    simp only [MailM, validateLine, if_neg h5, helloM, h1, h2, if_true, h3, hp]
    rcases hc : cmdM st 250
        (bytes "MAIL FROM:<" ++ fromAddr ++ bytes ">" ++ bytes " BODY=8BITMIME")
      with ⟨res, st2⟩
    have hf := cmdM_fields st 250
      (bytes "MAIL FROM:<" ++ fromAddr ++ bytes ">" ++ bytes " BODY=8BITMIME")
    rw [hc] at hf
    rcases res with e | ok <;> simpa using hf.1

/-- Witness for C7: CR/LF rejection and the 8BITMIME parameter at concrete
states. -/
theorem claim_C7_witness :
    (MailM stW250 (bytes "a\r\nb") = (.error .crlf, stW250)) ∧
    (RcptM stWGreeted (bytes "x\ny") = (.error .crlf, stWGreeted)) ∧
    ((MailM stW8BIT (bytes "a@b.c")).2.sent =
      [bytes "MAIL FROM:<" ++ bytes "a@b.c" ++ bytes ">" ++ bytes " BODY=8BITMIME"]) := by
  refine ⟨?_, ?_, ?_⟩
  · exact (claim_C7 stW250 _ (bytes "x")).1 (by decide)
  · exact (claim_C7 stWGreeted (bytes "x") _).2.1 (by decide)
  · have h := (claim_C7 stW8BIT (bytes "a@b.c") (bytes "x")).2.2 rfl rfl rfl []
      (by decide) (by decide)
    simpa using h

theorem helloM_done (st : ClientSt) (h1 : st.didHello = true) (h2 : st.helloError = none) :
    helloM st = (.ok (), st) := by
  simp [helloM, h1, h2]

/-- Claim C8 as stated is false for the start step: when the strategy's Start
fails, `Client.Auth` Quits and surfaces the error but never sends the `*`
abort.  Concretely, with a strategy whose start step fails, the trace contains
only QUIT. -/
theorem claim_C8_counterexample :
    (AuthM failStartStrat () stW221).1 = .error (.strat (bytes "boom")) ∧
    (AuthM failStartStrat () stW221).2.sent = [bytes "QUIT"] ∧
    bytes "*" ∉ (AuthM failStartStrat () stW221).2.sent := by
  refine ⟨by decide, by decide, by decide⟩

/-- Claim C8, amended: a start-step strategy error makes `Auth` Quit (without
the `*` abort) and return that error; every strategy error surfacing from
`Auth` leaves a trace ending either in QUIT alone (start step) or in `*`
followed by QUIT; and a strategy error at any continuation step (a 334
challenge round) sends the `*` abort, Quits, and returns the strategy's
original error. -/
theorem claim_C8_amended {σ : Type} (a : AuthStrat σ) (s : σ) (st : ClientSt)
    (h1 : st.didHello = true) (h2 : st.helloError = none) :
    (∀ e s1, a.start s ⟨st.serverName, st.isTLS, st.auth⟩ = (.error e, s1) →
       AuthM a s st = (.error (.strat e), (QuitM st).2) ∧
       ((QuitM st).2).sent = st.sent ++ [bytes "QUIT"]) ∧
    (∀ e st2, AuthM a s st = (.error (.strat e), st2) →
       st2.sent = st.sent ++ [bytes "QUIT"] ∨
       ∃ pre, st2.sent = st.sent ++ pre ++ [bytes "*", bytes "QUIT"]) ∧
    (∀ (fuel : Nat) (s1 : σ) (msg64 msg e : List Nat) (s2 : σ),
       b64Decode msg64 = some msg →
       a.next s1 msg true = (.error e, s2) →
       authLoop a (fuel + 1) s1 st 334 msg64 =
         (.error (.strat e), (QuitM ((cmdM st 501 (bytes "*")).2)).2) ∧
       ((QuitM ((cmdM st 501 (bytes "*")).2)).2).sent =
         st.sent ++ [bytes "*", bytes "QUIT"]) := by
  refine ⟨?_, ?_, ?_⟩
  · intro e s1 hstart
    constructor
    · simp only [AuthM, helloM_done st h1 h2, hstart]
    · exact QuitM_sent st h1 h2
  · intro e st2 h
    simp only [AuthM, helloM_done st h1 h2] at h
    split at h
    · rename_i se s1 hstart
      obtain ⟨hx, hy⟩ := Prod.mk.injEq .. ▸ h
      left
      rw [← hy]
      exact QuitM_sent st h1 h2
    · rename_i p mech resp s1 hstart
      split at h
      · rename_i ec stc heqc
        obtain ⟨hx, hy⟩ := Prod.mk.injEq .. ▸ h
        injection hx with hx1
        exact absurd hx1 (cmdM_no_strat _ _ _ _ _ heqc e)
      · rename_i code msg64 st3 heqc
        right
        obtain ⟨hs1, hd1, he1⟩ := cmdM_fields st 0
          (trimSpaceB (bytes "AUTH " ++ mech ++ [32] ++ b64Encode resp))
        rw [heqc] at hs1 hd1 he1
        obtain ⟨pre, hp⟩ := authLoop_strat_abort a _ _ _ _ _ e st2
          (hd1.trans h1) (he1.trans h2) h
        refine ⟨trimSpaceB (bytes "AUTH " ++ mech ++ [32] ++ b64Encode resp) :: pre, ?_⟩
        rw [hp, hs1]
        simp
  · intro fuel s1 msg64 msg e s2 hdec hnext
    have hb : (334 == 334) = true := rfl
    constructor
    · rw [authLoop]
      rw [if_pos rfl]
      simp only [hdec, hb, hnext]
    · exact abortQuit_sent st h1 h2

/-- Witness for the amended C8: a failing start step and a failing first
continuation step, at concrete states. -/
theorem claim_C8_amended_witness :
    (AuthM failStartStrat () stW221 = (.error (.strat (bytes "boom")), (QuitM stW221).2) ∧
     ((QuitM stW221).2).sent = stW221.sent ++ [bytes "QUIT"]) ∧
    (authLoop (failAtStrat (bytes "late")) 1 0 stWGreeted 334 (b64Encode (bytes "c1")) =
       (.error (.strat (bytes "late")), (QuitM ((cmdM stWGreeted 501 (bytes "*")).2)).2) ∧
     ((QuitM ((cmdM stWGreeted 501 (bytes "*")).2)).2).sent =
       stWGreeted.sent ++ [bytes "*", bytes "QUIT"]) := by
  constructor
  · exact (claim_C8_amended failStartStrat () stW221 rfl rfl).1 (bytes "boom") () rfl
  · exact (claim_C8_amended (failAtStrat (bytes "late")) 0 stWGreeted rfl rfl).2.2 0 0
      (b64Encode (bytes "c1")) (bytes "c1") (bytes "late") 0 (by decide) (by decide)

/-- Claim C10: every establishment path of `NewClient` that returns an error
— bad initial 220 greeting, failed hello, STARTTLS required but not offered or
failing, or AUTH failure — closes the underlying textproto connection before
returning. -/
theorem claim_C10 {σ : Type} (script : List (Nat × List Nat))
    (strat : Option (AuthStrat σ × σ)) (serverName : List Nat)
    (useSTARTTLS alreadyTLS : Bool) (e : SErr) (st : ClientSt)
    (h : NewClientM script strat serverName useSTARTTLS alreadyTLS = (.error e, st)) :
    st.closed = true := by
  unfold NewClientM at h
  split at h
  · simp only [failClose] at h
    obtain ⟨-, hst⟩ := Prod.mk.injEq .. ▸ h
    rw [← hst]
  · split at h
    · simp only [failClose] at h
      obtain ⟨-, hst⟩ := Prod.mk.injEq .. ▸ h
      rw [← hst]
    · split at h
      · simp only [failClose] at h
        obtain ⟨-, hst⟩ := Prod.mk.injEq .. ▸ h
        rw [← hst]
      · split at h
        · simp at h
        · split at h
          · split at h
            · simp only [failClose] at h
              obtain ⟨-, hst⟩ := Prod.mk.injEq .. ▸ h
              rw [← hst]
            · simp at h
          · simp at h

/-- Witness for C10: an empty server script fails the initial 220 read and the
connection is closed. -/
theorem claim_C10_witness :
    ((NewClientM (σ := Unit) [] none (bytes "srv") false false).2).closed = true := by
  have h1 : (NewClientM (σ := Unit) [] none (bytes "srv") false false).1 = .error .eof := by
    decide
  refine claim_C10 (σ := Unit) [] none (bytes "srv") false false .eof _ ?_
  rw [← h1]

/-- Claim C1 as stated is false: the decoder never reverses the
quoted-printable transfer encoding of a top-level text/plain body, and a
multi-address To list is re-parsed as a single joined string.  Concretely, the
plaintext-only message with body "=" and two To addresses decodes to body
"=3D" and a one-element To list. -/
theorem claim_C1_counterexample :
    (NewEmailFromReader (emailBytes eC1cex (bytes "BND1") (bytes "BND2") dateFix midFix)).map
        (fun em => (em.Text, em.To, em.From, em.Subject)) =
      .ok (bytes "=3D", [bytes "a@b.com, c@d.com"], bytes "f@a.com", bytes "s") ∧
    (bytes "=3D" : List Nat) ≠ eC1cex.Text ∧
    ([bytes "a@b.com, c@d.com"] : List (List Nat)) ≠ eC1cex.To := by
  refine ⟨by decide, by decide, by decide⟩

theorem trimLeftST_noop (l : List Nat) (h : ∀ b, l.head? = some b → ¬(b = 32 ∨ b = 9)) :
    trimLeftST l = l := by
  cases l with
  | nil => rfl
  | cons b rest =>
    have hb := h b (by simp)
    simp only [trimLeftST]
    rw [if_neg (by simpa using hb)]

theorem trimST_noop (l : List Nat) (h1 : ∀ b, l.head? = some b → ¬(b = 32 ∨ b = 9))
    (h2 : ∀ b, l.getLast? = some b → ¬(b = 32 ∨ b = 9)) : trimST l = l := by
  unfold trimST
  rw [trimLeftST_noop l h1]
  rw [trimLeftST_noop l.reverse (by
    intro b hb
    rw [List.head?_reverse] at hb
    exact h2 b hb)]
  exact List.reverse_reverse l

theorem getLine_append (xs r : List Nat) (h : 10 ∉ xs) :
    getLine (xs ++ 10 :: r) = some (xs, r) := by
  induction xs with
  | nil => simp [getLine]
  | cons b t ih =>
    have hb : b ≠ 10 := by intro hc; exact h (by simp [hc])
    simp only [List.cons_append, getLine]
    rw [if_neg hb]
    simp only [List.append_eq]
    rw [ih (by intro hc; exact h (by simp [hc]))]

theorem readContLines_stop (v rest : List Nat) (h : restHeadOK rest) :
    readContLines v rest = (v, rest) := by
  unfold readContLines readContLinesAux
  cases rest with
  | nil => simp
  | cons b t =>
    have hb := h
    simp only [restHeadOK, List.head?_cons] at hb
    simp only []
    rw [if_neg (by simpa using hb)]

theorem splitAtByte_first (sep : Nat) (k r : List Nat) (h : sep ∉ k) :
    splitAtByte sep (k ++ sep :: r) = some (k, r) := by
  induction k with
  | nil => simp [splitAtByte]
  | cons b t ih =>
    have hb : b ≠ sep := by intro hc; exact h (by simp [hc])
    simp only [List.cons_append, splitAtByte]
    rw [if_neg (by simpa using hb)]
    simp only [List.append_eq]
    rw [ih (by intro hc; exact h (by simp [hc]))]

theorem parseHB_blank (n : Nat) (body : List Nat) :
    parseHB (n + 1) (13 :: 10 :: body) = some ([], body) := by
  rw [parseHB]
  have hg : getLine (13 :: 10 :: body) = some ([13], body) := by
    have := getLine_append [13] body (by decide)
    simpa using this
  rw [hg]
  simp [stripCR, trimST, trimLeftST]

theorem getLast?_mem_of_eq : ∀ (l : List Nat) (b : Nat), l.getLast? = some b → b ∈ l := by
  intro l
  induction l with
  | nil => simp
  | cons a t ih =>
    intro b hb
    cases t with
    | nil => simp at hb; simp [hb]
    | cons c u =>
      rw [List.getLast?_cons_cons] at hb
      exact List.mem_cons_of_mem a (ih b hb)

theorem parseHB_line (n : Nat) (k v rest : List Nat) (hk : goodKeyP k) (hv : goodValP v)
    (hr : restHeadOK rest) :
    parseHB (n + 1) (renderPlainLine (k, v) ++ rest) =
      match parseHB n rest with
      | some (hs, body) => some ((canonKey k, v) :: hs, body)
      | none => none := by
  obtain ⟨hk1, hk2⟩ := hk
  obtain ⟨hv1, hv2, hv3, hv4⟩ := hv
  have hcolon : (bytes ": " : List Nat) = [58, 32] := rfl
  have hline : renderPlainLine (k, v) ++ rest = (k ++ [58, 32] ++ v ++ [13]) ++ 10 :: rest := by
    simp [renderPlainLine, hcolon]
  have hno10 : (10 : Nat) ∉ k ++ [58, 32] ++ v ++ [13] := by
    intro hmem
    simp only [List.mem_append, List.mem_cons, List.not_mem_nil, or_false] at hmem
    rcases hmem with ((h | h | h) | h) | h
    · exact absurd (hk2 10 h).1 (by omega)
    · omega
    · omega
    · exact absurd (hv2 10 h).1 (by omega)
    · omega
  have hstrip : stripCR (k ++ [58, 32] ++ v ++ [13]) = k ++ [58, 32] ++ v := by
    unfold stripCR
    rw [List.getLast?_concat]
    show (k ++ [58, 32] ++ v ++ [13]).dropLast = k ++ [58, 32] ++ v
    exact List.dropLast_concat
  have htrim : trimST (k ++ [58, 32] ++ v) = k ++ [58, 32] ++ v := by
    apply trimST_noop
    · intro b hb
      obtain ⟨a, kt, rfl⟩ := List.exists_cons_of_ne_nil hk1
      simp only [List.cons_append, List.head?_cons, Option.some.injEq] at hb
      have := hk2 a (by simp)
      omega
    · intro b hb
      have hgl : (k ++ [58, 32] ++ v).getLast? = v.getLast? := by
        have hs : v.getLast?.isSome := by rw [List.getLast?_isSome]; exact hv1
        rw [List.getLast?_append]
        cases hvv : v.getLast? with
        | none => rw [hvv] at hs; simp at hs
        | some x => simp [Option.or]
      rw [hgl] at hb
      have hm := hv2 b (getLast?_mem_of_eq v b hb)
      have hb32 : b ≠ 32 := by intro hc; rw [hc] at hb; exact hv4 hb
      omega
  have hlineNe : k ++ [58, 32] ++ v ≠ [] := by
    obtain ⟨a, kt, rfl⟩ := List.exists_cons_of_ne_nil hk1
    simp
  have hsplit : splitAtByte 58 (k ++ [58, 32] ++ v) = some (k, 32 :: v) := by
    have h58 : (58 : Nat) ∉ k := fun hm => absurd (hk2 58 hm).2.2 (by simp)
    have h2 : k ++ [58, 32] ++ v = k ++ 58 :: 32 :: v := by simp
    rw [h2, splitAtByte_first 58 k (32 :: v) h58]
  have htl : trimLeftST (32 :: v) = v := by
    simp only [trimLeftST]
    rw [if_pos (by simp)]
    cases v with
    | nil => rfl
    | cons a t =>
      have hmem := hv2 a (by simp)
      have ha32 : a ≠ 32 := by intro hc; exact hv3 (by simp [hc])
      simp only [trimLeftST]
      rw [if_neg (by simp; omega)]
  rw [parseHB, hline, getLine_append _ _ hno10]
  simp only [hstrip, htrim]
  rw [if_neg hlineNe]
  rw [readContLines_stop _ _ hr]
  simp only [hsplit]
  rw [if_neg hk1, htl]

theorem restHeadOK_block (hl : List (List Nat × List Nat)) (body : List Nat)
    (hok : ∀ kv ∈ hl, goodKeyP kv.1) :
    restHeadOK (renderPlainLines hl ++ 13 :: 10 :: body) := by
  cases hl with
  | nil => simp [renderPlainLines, restHeadOK]
  | cons kv tl =>
    obtain ⟨hk1, hk2⟩ := hok kv (by simp)
    obtain ⟨a, kt, hka⟩ := List.exists_cons_of_ne_nil hk1
    have hb := hk2 a (by rw [hka]; simp)
    simp only [renderPlainLines, List.map_cons, List.flatten_cons, renderPlainLine, hka]
    simp only [restHeadOK, List.cons_append, List.head?_cons]
    omega

theorem parseHB_block : ∀ (hl : List (List Nat × List Nat)) (n : Nat) (body : List Nat),
    (∀ kv ∈ hl, goodKeyP kv.1 ∧ goodValP kv.2) →
    parseHB (hl.length + (n + 1)) (renderPlainLines hl ++ 13 :: 10 :: body) =
      some (hl.map (fun kv => (canonKey kv.1, kv.2)), body) := by
  intro hl
  induction hl with
  | nil =>
    intro n body _
    simpa [renderPlainLines] using parseHB_blank n body
  | cons kv tl ih =>
    intro n body hok
    obtain ⟨k, v⟩ := kv
    have hkv := hok (k, v) (by simp)
    have hrw : renderPlainLines ((k, v) :: tl) ++ 13 :: 10 :: body =
        renderPlainLine (k, v) ++ (renderPlainLines tl ++ 13 :: 10 :: body) := by
      simp [renderPlainLines]
    have hrest : restHeadOK (renderPlainLines tl ++ 13 :: 10 :: body) :=
      restHeadOK_block tl body (fun kv2 h2 => (hok kv2 (by simp [h2])).1)
    have hlen : ((k, v) :: tl).length + (n + 1) = (tl.length + (n + 1)) + 1 := by
      simp [List.length_cons]; omega
    rw [hlen, hrw, parseHB_line (tl.length + (n + 1)) k v _ hkv.1 hkv.2 hrest]
    rw [ih n body (fun kv2 h2 => hok kv2 (by simp [h2]))]
    simp

theorem qEncode_plain (v : List Nat) (h : ∀ b ∈ v, 32 ≤ b ∧ b ≤ 126) :
    qEncodeHeader v = v := by
  have hne : needsEncoding v = false := by
    simp only [needsEncoding, List.any_eq_false]
    intro b hb
    have := h b hb
    simp
    omega
  simp [qEncodeHeader, hne]

theorem containsSubB_cons (b : Nat) (rest p : List Nat) :
    containsSubB (b :: rest) p =
      if startsWithB (b :: rest) p then true else containsSubB rest p := by
  rw [containsSubB]

theorem decodeHeaderAux_plain : ∀ (fuel : Nat) (v : List Nat), v.length < fuel →
    containsSubB v (bytes "=?") = false → decodeHeaderAux fuel v = v := by
  intro fuel
  induction fuel with
  | zero => intro v h _; omega
  | succ f ih =>
    intro v hlen hsub
    cases v with
    | nil => rfl
    | cons b rest =>
      have hbq : (bytes "=?" : List Nat) = [61, 63] := rfl
      have hcond : ¬(b = 61 ∧ rest.head? = some 63) := by
        rintro ⟨rfl, hh⟩
        cases rest with
        | nil => simp at hh
        | cons c t =>
          simp only [List.head?_cons, Option.some.injEq] at hh
          subst hh
          rw [containsSubB_cons] at hsub
          rw [if_pos (by simp [startsWithB, hbq])] at hsub
          exact absurd hsub (by simp)
      have hsub2 : containsSubB rest (bytes "=?") = false := by
        rw [containsSubB_cons] at hsub
        by_cases hs : startsWithB (b :: rest) (bytes "=?") = true
        · rw [if_pos hs] at hsub; exact absurd hsub (by simp)
        · rw [if_neg hs] at hsub; exact hsub
      rw [decodeHeaderAux]
      rw [if_neg hcond]
      rw [ih rest (by simp at hlen; omega) hsub2]

theorem decodeHeader_plain (v : List Nat) (hsub : containsSubB v (bytes "=?") = false) :
    decodeHeader v = v :=
  decodeHeaderAux_plain (v.length + 1) v (by omega) hsub

theorem hdrAddVal_fresh : ∀ (h : HdrMap) (k v : List Nat), (∀ kv ∈ h, kv.1 ≠ k) →
    hdrAddVal h k v = h ++ [(k, [v])] := by
  intro h k v
  induction h with
  | nil => intro _; rfl
  | cons kv rest ih =>
    intro hf
    have h1 : kv.1 ≠ k := hf kv (by simp)
    simp only [hdrAddVal]
    rw [if_neg (by simpa using h1)]
    rw [ih (fun kv2 h2 => hf kv2 (by simp [h2]))]
    simp

theorem groupPairsAux_distinct : ∀ (ps : List (List Nat × List Nat)) (acc : HdrMap),
    ps.Pairwise (fun a b => a.1 ≠ b.1) →
    (∀ kv ∈ acc, ∀ p ∈ ps, kv.1 ≠ p.1) →
    groupPairsAux acc ps = acc ++ ps.map (fun kv => (kv.1, [kv.2])) := by
  intro ps
  induction ps with
  | nil => intro acc _ _; simp [groupPairsAux]
  | cons p rest ih =>
    intro acc hpw hacc
    obtain ⟨hp1, hp2⟩ := List.pairwise_cons.mp hpw
    simp only [groupPairsAux]
    rw [hdrAddVal_fresh acc p.1 p.2 (fun kv hk => hacc kv hk p (by simp))]
    rw [ih (acc ++ [(p.1, [p.2])]) hp2 ?fresh]
    · simp
    case fresh =>
      intro kv hk q hq
      rcases List.mem_append.mp hk with hold | hnew
      · exact hacc kv hold q (by simp [hq])
      · have : kv = (p.1, [p.2]) := by simpa using hnew
        rw [this]
        exact hp1 q hq

theorem hdrValues_nil (k : List Nat) : hdrValues [] k = [] := rfl

theorem hdrValues_cons_eq (k1 k2 : List Nat) (vs : List (List Nat)) (t : HdrMap)
    (h : (k1 == k2) = true) : hdrValues ((k1, vs) :: t) k2 = vs := by
  simp [hdrValues, List.find?, h]

theorem hdrValues_cons_ne (k1 k2 : List Nat) (vs : List (List Nat)) (t : HdrMap)
    (h : (k1 == k2) = false) : hdrValues ((k1, vs) :: t) k2 = hdrValues t k2 := by
  simp [hdrValues, List.find?, h]

theorem hdrGet_eq_headD (h : HdrMap) (k : List Nat) :
    hdrGet h k = (hdrValues h k).headD [] := by
  unfold hdrGet
  cases hdrValues h k <;> rfl

theorem hdrHas_nil (k : List Nat) : hdrHas [] k = false := rfl

theorem hdrHas_cons_eq (k1 k2 : List Nat) (vs : List (List Nat)) (t : HdrMap)
    (h : (k1 == k2) = true) : hdrHas ((k1, vs) :: t) k2 = true := by
  simp [hdrHas, List.find?, h]

theorem hdrHas_cons_ne (k1 k2 : List Nat) (vs : List (List Nat)) (t : HdrMap)
    (h : (k1 == k2) = false) : hdrHas ((k1, vs) :: t) k2 = hdrHas t k2 := by
  simp [hdrHas, List.find?, h]

theorem hdrDel_nil (k : List Nat) : hdrDel [] k = [] := rfl

theorem hdrDel_cons_eq (k1 k2 : List Nat) (vs : List (List Nat)) (t : HdrMap)
    (h : (k1 == k2) = true) : hdrDel ((k1, vs) :: t) k2 = hdrDel t k2 := by
  simp [hdrDel, List.filter, h]

theorem hdrDel_cons_ne (k1 k2 : List Nat) (vs : List (List Nat)) (t : HdrMap)
    (h : (k1 == k2) = false) : hdrDel ((k1, vs) :: t) k2 = (k1, vs) :: hdrDel t k2 := by
  simp [hdrDel, List.filter, h]

theorem hdrSet_nil (k v : List Nat) : hdrSet [] k v = [(k, [v])] := rfl

theorem hdrSet_cons_eq (k1 k2 v : List Nat) (vs : List (List Nat)) (t : HdrMap)
    (h : (k1 == k2) = true) : hdrSet ((k1, vs) :: t) k2 v = (k2, [v]) :: t := by
  simp [hdrSet, h]

theorem hdrSet_cons_ne (k1 k2 v : List Nat) (vs : List (List Nat)) (t : HdrMap)
    (h : (k1 == k2) = false) : hdrSet ((k1, vs) :: t) k2 v = (k1, vs) :: hdrSet t k2 v := by
  simp [hdrSet, h]

theorem msgHeaders_C1 (f a s t date msgid : List Nat) (hs : s ≠ []) :
    msgHeaders (eC1rt f a s t) date msgid =
      [(bytes "To", [a]), (bytes "Subject", [s]), (bytes "Message-Id", [msgid]),
       (bytes "From", [f]), (bytes "Date", [date]), (bytes "MIME-Version", [bytes "1.0"])] := by
  simp +decide [msgHeaders, eC1rt, derivedNames, hdrHas_nil, hdrHas_cons_eq, hdrHas_cons_ne,
    hdrSet_nil, hdrSet_cons_eq, hdrSet_cons_ne, joinCommaSpace, hs]

theorem emailBytes_C1 (f a s t bnd sub date msgid : List Nat)
    (hf : ∀ b ∈ f, 32 ≤ b ∧ b ≤ 126) (ha : ∀ b ∈ a, 32 ≤ b ∧ b ≤ 126)
    (hsv : ∀ b ∈ s, 32 ≤ b ∧ b ≤ 126) (hd : ∀ b ∈ date, 32 ≤ b ∧ b ≤ 126)
    (hm : ∀ b ∈ msgid, 32 ≤ b ∧ b ≤ 126) (hs : s ≠ []) :
    emailBytes (eC1rt f a s t) bnd sub date msgid =
      renderPlainLines (c1Lines f a s date msgid) ++ 13 :: 10 :: qpEncode t := by
  have hshape : emailShape (eC1rt f a s t) = .singlePlain t := by
    simp [emailShape, eC1rt, bodyLeaves]
  have hct : topContentType (eC1rt f a s t) bnd =
      (bytes "text/plain; charset=UTF-8", some (bytes "quoted-printable")) := by
    simp [topContentType, eC1rt]
  have h10 : qEncodeHeader (bytes "1.0") = bytes "1.0" := by decide
  simp only [emailBytes, msgHeaders_C1 f a s t date msgid hs, hshape, hct]
  simp +decide [headerToBytes, hdrSet_nil, hdrSet_cons_eq, hdrSet_cons_ne,
    renderPlainLines, renderPlainLine, c1Lines, renderShape, h10,
    qEncode_plain f hf, qEncode_plain a ha, qEncode_plain s hsv,
    qEncode_plain date hd, qEncode_plain msgid hm]

theorem trimLeftWS_head_noop (l : List Nat) (h : ∀ b, l.head? = some b → isWSByte b = false) :
    trimLeftWS l = l := by
  cases l with
  | nil => rfl
  | cons b rest =>
    have hb := h b (by simp)
    simp [trimLeftWS, hb]

theorem renderPlainLines_len (hl : List (List Nat × List Nat)) :
    hl.length ≤ (renderPlainLines hl).length := by
  induction hl with
  | nil => simp [renderPlainLines]
  | cons kv tl ih =>
    simp only [renderPlainLines, List.map_cons, List.flatten_cons, List.length_append,
      List.length_cons, renderPlainLine] at *
    omega

theorem readMIMEHeader_block (hl : List (List Nat × List Nat)) (body : List Nat)
    (hok : ∀ kv ∈ hl, goodKeyP kv.1 ∧ goodValP kv.2) :
    readMIMEHeader (renderPlainLines hl ++ 13 :: 10 :: body) =
      some (groupPairsAux [] (hl.map (fun kv => (canonKey kv.1, kv.2))), body) := by
  unfold readMIMEHeader
  have hle := renderPlainLines_len hl
  rw [show (renderPlainLines hl ++ 13 :: 10 :: body).length + 16 =
      hl.length + (((((renderPlainLines hl).length - hl.length) + body.length) + 17) + 1) from by
    simp [List.length_append]
    omega]
  rw [parseHB_block hl _ body hok]

theorem parseMIMEParts_leaf (hs : HdrMap) (body ct : List Nat)
    (ps : List (List Nat × List Nat))
    (hhas : hdrHas hs (bytes "Content-Type") = true)
    (hmt : parseMediaType (hdrGet hs (bytes "Content-Type")) = some (ct, ps))
    (hnm : startsWithB ct (bytes "multipart/") = false) :
    parseMIMEParts hs body = .ok [⟨hs, body⟩] := by
  unfold parseMIMEParts
  rw [show body.length + 8 = (body.length + 7) + 1 from rfl]
  simp only [parseMIMEPartsAux, hhas, if_true, hmt, hnm]
  simp

theorem assignParts_single_plain (e : Email) (p : MimePart)
    (ps : List (List Nat × List Nat))
    (hne : hdrGet p.header (bytes "Content-Type") ≠ [])
    (hmt : parseMediaType (hdrGet p.header (bytes "Content-Type")) =
      some (bytes "text/plain", ps)) :
    assignParts e [p] = .ok { e with Text := p.body } := by
  simp only [assignParts]
  rw [if_neg hne]
  simp only [hmt]
  simp

/-- C1 (amended): for every plaintext-only message of the family `eC1rt`
(one plain-ASCII To address, plain-ASCII From and Subject, no HTML, no
attachments, no custom headers), encoding with `Email.Bytes` and decoding with
`NewEmailFromReader` preserves From, To and Subject exactly, while the decoded
Text is the quoted-printable ENCODING of the original body: the decoder never
reverses the quoted-printable transfer encoding, so the body round-trips
verbatim exactly when `qpEncode` leaves it unchanged. -/
theorem claim_C1_amended (f a s t date msgid bnd sub : List Nat)
    (hf : plainHdrVal f) (ha : plainHdrVal a) (hsv : plainHdrVal s)
    (hd : plainHdrVal date) (hm : plainHdrVal msgid) :
    (NewEmailFromReader (emailBytes (eC1rt f a s t) bnd sub date msgid)).map
        (fun em => (em.Text, em.From, em.To, em.Subject)) =
      .ok (qpEncode t, f, [a], s) := by
  have hsne : s ≠ [] := hsv.1.1
  have hok : ∀ kv ∈ c1Lines f a s date msgid, goodKeyP kv.1 ∧ goodValP kv.2 := by
    intro kv hkv
    simp only [c1Lines, List.mem_cons, List.not_mem_nil, or_false] at hkv
    rcases hkv with h | h | h | h | h | h | h | h <;> subst h
    · exact ⟨show goodKeyP (bytes "To") by decide, ha.1⟩
    · exact ⟨show goodKeyP (bytes "Subject") by decide, hsv.1⟩
    · exact ⟨show goodKeyP (bytes "Message-Id") by decide, hm.1⟩
    · exact ⟨show goodKeyP (bytes "From") by decide, hf.1⟩
    · exact ⟨show goodKeyP (bytes "Date") by decide, hd.1⟩
    · exact ⟨show goodKeyP (bytes "MIME-Version") by decide,
        show goodValP (bytes "1.0") by decide⟩
    · exact ⟨show goodKeyP (bytes "Content-Type") by decide,
        show goodValP (bytes "text/plain; charset=UTF-8") by decide⟩
    · exact ⟨show goodKeyP (bytes "Content-Transfer-Encoding") by decide,
        show goodValP (bytes "quoted-printable") by decide⟩
  have hcanon : (c1Lines f a s date msgid).map (fun kv => (canonKey kv.1, kv.2)) =
      [(bytes "To", a), (bytes "Subject", s), (bytes "Message-Id", msgid),
       (bytes "From", f), (bytes "Date", date), (bytes "Mime-Version", bytes "1.0"),
       (bytes "Content-Type", bytes "text/plain; charset=UTF-8"),
       (bytes "Content-Transfer-Encoding", bytes "quoted-printable")] := by
    simp +decide [c1Lines]
  have hgrp : groupPairsAux []
        ((c1Lines f a s date msgid).map (fun kv => (canonKey kv.1, kv.2))) =
      c1Map f a s date msgid := by
    rw [hcanon, groupPairsAux_distinct _ [] ?pw ?acc]
    · simp [c1Map]
    case pw => simp +decide [List.pairwise_cons]
    case acc => simp
  have hread : readMIMEHeader
        (renderPlainLines (c1Lines f a s date msgid) ++ 13 :: 10 :: qpEncode t) =
      some (c1Map f a s date msgid, qpEncode t) := by
    rw [readMIMEHeader_block _ _ hok, hgrp]
  have htr : trimLeftWS (renderPlainLines (c1Lines f a s date msgid) ++ 13 :: 10 :: qpEncode t) =
      renderPlainLines (c1Lines f a s date msgid) ++ 13 :: 10 :: qpEncode t := by
    apply trimLeftWS_head_noop
    intro b hb
    have h84 : (renderPlainLines (c1Lines f a s date msgid) ++
        13 :: 10 :: qpEncode t).head? = some 84 := by
      have hTo : (bytes "To" : List Nat) = 84 :: [111] := rfl
      simp [c1Lines, renderPlainLines, renderPlainLine, hTo]
    rw [h84] at hb
    injection hb with hb
    subst hb
    decide
  have hSubj : hdrGet (c1Map f a s date msgid) (bytes "Subject") = s := by
    simp +decide [c1Map, hdrGet_eq_headD, hdrValues_cons_eq, hdrValues_cons_ne]
  have hFrom : hdrGet (c1Map f a s date msgid) (bytes "From") = f := by
    simp +decide [c1Map, hdrGet_eq_headD, hdrValues_cons_eq, hdrValues_cons_ne]
  have hToV : hdrValues (c1Map f a s date msgid) (bytes "To") = [a] := by
    simp +decide [c1Map, hdrValues_cons_eq, hdrValues_cons_ne]
  have hCc : hdrValues (c1Map f a s date msgid) (bytes "Cc") = [] := by
    simp +decide [c1Map, hdrValues_cons_eq, hdrValues_cons_ne, hdrValues_nil]
  have hBcc : hdrValues (c1Map f a s date msgid) (bytes "Bcc") = [] := by
    simp +decide [c1Map, hdrValues_cons_eq, hdrValues_cons_ne, hdrValues_nil]
  have hdel : hdrDel (hdrDel (hdrDel (hdrDel (hdrDel (c1Map f a s date msgid)
      (bytes "Subject")) (bytes "To")) (bytes "Cc")) (bytes "Bcc")) (bytes "From") =
      c1MapDel date msgid := by
    simp +decide [c1Map, c1MapDel, hdrDel_cons_eq, hdrDel_cons_ne, hdrDel_nil]
  have hhas3 : hdrHas (c1MapDel date msgid) (bytes "Content-Type") = true := by
    simp +decide [c1MapDel, hdrHas_cons_eq, hdrHas_cons_ne]
  have hgetCT : hdrGet (c1MapDel date msgid) (bytes "Content-Type") =
      bytes "text/plain; charset=UTF-8" := by
    simp +decide [c1MapDel, hdrGet_eq_headD, hdrValues_cons_eq, hdrValues_cons_ne]
  have hmt : parseMediaType (hdrGet (c1MapDel date msgid) (bytes "Content-Type")) =
      some (bytes "text/plain", [(bytes "charset", bytes "UTF-8")]) := by
    rw [hgetCT]
    decide
  have hparse : parseMIMEParts (c1MapDel date msgid) (qpEncode t) =
      .ok [⟨c1MapDel date msgid, qpEncode t⟩] :=
    parseMIMEParts_leaf _ _ (bytes "text/plain") [(bytes "charset", bytes "UTF-8")]
      hhas3 hmt (by decide)
  have hassign : assignParts
      { Subject := s, To := [a], Cc := [], Bcc := [], From := f,
        Headers := c1MapDel date msgid }
      [⟨c1MapDel date msgid, qpEncode t⟩] =
      .ok { Subject := s, To := [a], Cc := [], Bcc := [], From := f,
            Headers := c1MapDel date msgid, Text := qpEncode t } := by
    rw [assignParts_single_plain _ _ [(bytes "charset", bytes "UTF-8")]
      (by rw [show (⟨c1MapDel date msgid, qpEncode t⟩ : MimePart).header =
            c1MapDel date msgid from rfl, hgetCT]; decide) (by exact hmt)]
  rw [emailBytes_C1 f a s t bnd sub date msgid hf.1.2.1 ha.1.2.1 hsv.1.2.1
    hd.1.2.1 hm.1.2.1 hsne]
  unfold NewEmailFromReader
  rw [htr, hread]
  simp only [hSubj, hFrom, hToV, hCc, hBcc, hdel, hhas3, hparse, hassign,
    decodeOrKeep, decodeHeader_plain f hf.2, decodeHeader_plain a ha.2,
    decodeHeader_plain s hsv.2, ite_self, List.map_cons, List.map_nil,
    if_true, Except.map]

theorem claim_C1_amended_witness :
    plainHdrVal (bytes "f@a.com") ∧
    (NewEmailFromReader (emailBytes
        (eC1rt (bytes "f@a.com") (bytes "a@b.com") (bytes "s") (bytes "Hi"))
        (bytes "B1") (bytes "B2") dateFix midFix)).map
        (fun em => (em.Text, em.From, em.To, em.Subject)) =
      .ok (qpEncode (bytes "Hi"), bytes "f@a.com", [bytes "a@b.com"], bytes "s") :=
  ⟨by decide,
   claim_C1_amended (bytes "f@a.com") (bytes "a@b.com") (bytes "s") (bytes "Hi")
     dateFix midFix (bytes "B1") (bytes "B2")
     (by decide) (by decide) (by decide) (by decide) (by decide)⟩
